import Mathlib

/-!
# Catalog and categories REST handlers

A shallow embedding of the HTTP handler layer of the product-catalog service
(`app/catalog/handler.go`, `app/categories/handler.go`) over the entities and
repository interfaces of `models`, together with the parts of the Go standard
library the handlers read their input with (`strconv.Atoi`, `url.Values.Get`,
`Request.PathValue`).

Conventions of the embedding:

* Go `int` and `int64` values are mathematical integers (`Int`); the only
  place where the machine width matters is the range check of `strconv.Atoi`,
  which is modelled explicitly with `strconv.intSize = 64`.
* A Go `error` is an `Option Error` (`none` is `nil`).  Functions with several
  results return tuples, so that a result returned alongside an error is
  still visible to the caller, exactly as in Go.
* A repository is a record of functions describing how the repository answers
  at the time of the request.  Every handler performs at most one repository
  call; the calls performed are recorded, in order, in `Served.calls`.
* A handler returns the response it wrote, or `none` when it stopped with a
  run-time panic before writing anything.
* Two libraries outside the repository are parameters of the handlers: the
  decimal package (`decimal.Package`: parsing and the conversion to `float64`)
  and the JSON decoding of the request body (`categories.Decoder`).  Statements
  quantify over them; concrete instances serve to instantiate the statements.
  The instance `categories.DecodeJSON` follows `encoding/json`: it reads the
  first JSON value of the body and decodes it into the request.
* The database behind `ProductsRepository` is the list of rows of each table
  (`gorm.DB`); the query-building calls of the ORM act on a `gorm.Statement`
  and `Count` and `Find` evaluate it as the SQL they send would be evaluated.
-/

set_option autoImplicit false

/-! ## `strconv` -/

namespace strconv

/-- The two failure causes of the numeric parsers (`strconv.ErrSyntax`, `strconv.ErrRange`). -/
inductive NumError where
  | ErrSyntax
  | ErrRange
  deriving DecidableEq, Repr

/-- Go's `strconv.IntSize`, the width of `int`, on a 64-bit platform. -/
def intSize : Nat := 64

/-- The digit loop of `strconv.ParseUint(s, 10, bitSize)`: every byte must be an ASCII
digit (anything else, an underscore or a letter included, is a syntax error) and
the value accumulated so far must stay within `maxVal` (else a range error). -/
def parseUintLoop (maxVal : Nat) : List Char → Nat → Except NumError Nat
  | [], n => .ok n
  | c :: cs, n =>
    if c.isDigit then
      let n1 := n * 10 + (c.toNat - 48)
      if n1 > maxVal then .error .ErrRange else parseUintLoop maxVal cs n1
    else .error .ErrSyntax

/-- Base-10 `strconv.ParseUint(s, 10, bitSize)`: an empty text is a syntax error, and
the largest value accepted is `2 ^ bitSize - 1`. -/
def ParseUint (s : List Char) (bitSize : Nat) : Except NumError Nat :=
  match s with
  | [] => .error .ErrSyntax
  | _ => parseUintLoop (2 ^ bitSize - 1) s 0

/-- Base-10 `strconv.ParseInt(s, 10, bitSize)`: an optional sign, the unsigned
magnitude, then the check against the two's-complement range of `bitSize` bits. -/
def ParseInt (s : List Char) (bitSize : Nat) : Except NumError Int :=
  match s with
  | [] => .error .ErrSyntax
  | c :: rest =>
    let neg : Bool := c = '-'
    let digits := if c = '+' ∨ c = '-' then rest else s
    match ParseUint digits bitSize with
    | .error e => .error e
    | .ok un =>
      let cutoff : Nat := 2 ^ (bitSize - 1)
      if ¬ neg ∧ un ≥ cutoff then .error .ErrRange
      else if neg ∧ un > cutoff then .error .ErrRange
      else .ok (if neg then - (un : Int) else (un : Int))

/-- Go's `strconv.Atoi(s)`: `ParseInt(s, 10, 0)` converted to `int`. -/
def Atoi (s : String) : Except NumError Int :=
  ParseInt s.data intSize

/-- The number a run of digits denotes when read after an accumulated value `n`. -/
def digitsValue (s : List Char) (n : Nat) : Nat :=
  s.foldl (fun n c => n * 10 + (c.toNat - 48)) n

/-- Numeric text: an optional sign followed by one or more ASCII digits and nothing else. -/
def isNumeric (s : String) : Bool :=
  match s.data with
  | [] => false
  | c :: rest =>
    if c = '+' ∨ c = '-' then !rest.isEmpty && rest.all Char.isDigit
    else s.data.all Char.isDigit

end strconv

/-! ## `net/url` and `net/http` -/

namespace url

/-- The parsed query string (`r.URL.Query()`): its key/value pairs in order of occurrence. -/
abbrev Values := List (String × String)

/-- Go's `Values.Get`: the first value associated with `key`, or the empty string. -/
def Values.Get : Values → String → String
  | [], _ => ""
  | (k, x) :: rest, key => if k = key then x else Values.Get rest key

/-- Go's `Values.Del`: removes every value associated with `key`. -/
def Values.Del : Values → String → Values
  | [], _ => []
  | (k, x) :: rest, key => if k = key then Values.Del rest key else (k, x) :: Values.Del rest key

end url

namespace http

/-- The parts of an `*http.Request` the handlers read. -/
structure Request where
  /-- The parsed query string, `r.URL.Query()`. -/
  Query : url.Values := []
  /-- The path wildcards matched by the router, read through `r.PathValue`. -/
  PathValues : List (String × String) := []
  /-- The request body, `r.Body`. -/
  Body : String := ""

/-- Go's `Request.PathValue`: the value of the named wildcard, or the empty string. -/
def Request.PathValue (r : Request) (name : String) : String :=
  url.Values.Get r.PathValues name

def StatusOK : Nat := 200
def StatusBadRequest : Nat := 400
def StatusNotFound : Nat := 404
def StatusInternalServerError : Nat := 500

end http

/-- Go's `error` values, identified by their message. -/
abbrev Error := String

/-! ## `github.com/shopspring/decimal` -/

namespace decimal

/-- An arbitrary-precision fixed-point decimal: the number `value * 10 ^ exp`. -/
structure Decimal where
  value : Int
  exp : Int
  deriving DecidableEq, Repr

/-- The rational number a decimal denotes. -/
def Decimal.toRat (d : Decimal) : ℚ := (d.value : ℚ) * (10 : ℚ) ^ d.exp

/-- The library's `Decimal.IsZero`: the sign of the unscaled value is zero. -/
def Decimal.IsZero (d : Decimal) : Bool := d.value == 0

/-- The library's `decimal.Zero`. -/
def Zero : Decimal := ⟨0, 1⟩

/-- The two operations of the decimal package whose results the handlers only
pass along: parsing a decimal from text and the conversion to `float64`.  The
handlers are written against this record, so that every statement about them
holds for whatever the package computes; `Float64` stands for Go's `float64`. -/
structure Package where
  Float64 : Type
  NewFromString : String → Except Error Decimal
  InexactFloat64 : Decimal → Float64

/-- An optionally signed, non-empty run of ASCII digits read as an integer of any size
(the library reads the digits with `ParseInt` or `big.Int.SetString`, by their number). -/
def parseBigInt (s : List Char) : Option Int :=
  let digitsValue : List Char → Option Nat := fun ds =>
    if ds ≠ [] ∧ ds.all Char.isDigit then
      some (ds.foldl (fun n c => n * 10 + (c.toNat - 48)) 0)
    else none
  match s with
  | [] => none
  | c :: rest =>
    if c = '-' then (digitsValue rest).map (fun n => - (n : Int))
    else if c = '+' then (digitsValue rest).map (fun n => (n : Int))
    else (digitsValue s).map (fun n => (n : Int))

/-- A model of the library's `NewFromString`: an optional exponent after the first
`E` or `e` (a 32-bit integer), at most one decimal point, and the remaining digits
read as the unscaled value. -/
def NewFromString (value : String) : Except Error Decimal :=
  let cs := value.data
  let isE : Char → Bool := fun c => c = 'E' ∨ c = 'e'
  let mantissa := cs.takeWhile (fun c => ! isE c)
  let expText := (cs.dropWhile (fun c => ! isE c)).drop 1
  let hasE := cs.any isE
  match (if hasE then strconv.ParseInt expText 32 else .ok 0) with
  | .error .ErrRange => .error "fractional part too long"
  | .error .ErrSyntax => .error "exponent is not numeric"
  | .ok expInt =>
    if mantissa.count '.' > 1 then .error "too many .s"
    else
      let intPart := mantissa.takeWhile (fun c => c ≠ '.')
      let fracPart := (mantissa.dropWhile (fun c => c ≠ '.')).drop 1
      let exp : Int := expInt - (fracPart.length : Int)
      match parseBigInt (intPart ++ fracPart) with
      | none => .error "can't convert to decimal"
      | some v =>
        if exp < - 2 ^ 31 ∨ exp > 2 ^ 31 - 1 then .error "fractional part too long"
        else .ok ⟨v, exp⟩

/-- An instance of the package record with the model parser and, in place of
`float64`, the exact rational value of the decimal. -/
def exact : Package where
  Float64 := ℚ
  NewFromString := NewFromString
  InexactFloat64 := Decimal.toRat

end decimal

/-! ## `models` -/

namespace models

/-- The entity of `models/categories.go`. -/
structure Category where
  ID : Nat := 0
  Code : String
  Name : String
  deriving DecidableEq, Repr

/-- Modelled from the spec: the `Variant` entity, whose declaration is not among the
sources; the data model gives it the fields id, product id, name, sku and price. -/
structure Variant where
  ID : Nat := 0
  ProductID : Nat := 0
  Name : String
  SKU : String
  Price : decimal.Decimal
  deriving DecidableEq, Repr

/-- The entity of `models/products.go`; the two pointer fields are options. -/
structure Product where
  ID : Nat := 0
  Code : String
  Price : decimal.Decimal
  CategoryID : Option Nat := none
  Category : Option Category := none
  Variants : List Variant := []
  deriving DecidableEq, Repr

/-- The interface `ProductRepository` of `models/repositories.go`. -/
structure ProductRepository where
  GetAll : Int → Int → String → Option decimal.Decimal → List Product × Int × Option Error
  GetByCode : String → Option Product × Option Error

/-- The interface `CategoryRepository` of `models/repositories.go`.  `Create` receives
a pointer, so its result carries the category as the call left it. -/
structure CategoryRepository where
  GetAll : Unit → List Category × Option Error
  Create : Category → Category × Option Error

/-- A product repository with nothing stored: every listing is empty and every lookup
reports that the record was not found. -/
def emptyProducts : ProductRepository where
  GetAll := fun _ _ _ _ => ([], 0, none)
  GetByCode := fun _ => (none, some "record not found")

/-- The product of the handler test "returns product with variants": price 10.99, one
variant priced 11.99 and one whose stored price is zero. -/
def PROD001 : Product where
  ID := 1
  Code := "PROD001"
  Price := ⟨1099, -2⟩
  CategoryID := some 1
  Category := some { ID := 1, Code := "clothing", Name := "Clothing" }
  Variants :=
    [ { ID := 1, ProductID := 1, Name := "Variant A", SKU := "SKU001A", Price := ⟨1199, -2⟩ },
      { ID := 2, ProductID := 1, Name := "Variant B", SKU := "SKU001B", Price := decimal.Zero } ]

/-- A product repository holding exactly one product. -/
def singleProduct (p : Product) : ProductRepository where
  GetAll := fun _ _ _ _ => ([p], 1, none)
  GetByCode := fun code =>
    if code = p.Code then (some p, none) else (none, some "record not found")

/-- A product repository whose every call reports the error `e`, handing back data
alongside it. -/
def failingProducts (e : Error) : ProductRepository where
  GetAll := fun _ _ _ _ => ([PROD001], 1, some e)
  GetByCode := fun _ => (some PROD001, some e)

/-- A category repository holding `stored`: `Create` accepts any category and assigns
it the next id, leaving code and name as given. -/
def categoriesHolding (stored : List Category) : CategoryRepository where
  GetAll := fun _ => (stored, none)
  Create := fun c => ({ c with ID := stored.length + 1 }, none)

/-- A category repository whose every call reports the error `e`, handing back data
alongside it. -/
def failingCategories (e : Error) : CategoryRepository where
  GetAll := fun _ => ([{ ID := 1, Code := "clothing", Name := "Clothing" }], some e)
  Create := fun c => ({ c with ID := 1 }, some e)

/-- The calls a handler can make on a `ProductRepository`, with their arguments. -/
inductive ProductCall where
  | GetAll (offset limit : Int) (categoryCode : String) (priceLessThan : Option decimal.Decimal)
  | GetByCode (code : String)
  deriving DecidableEq, Repr

/-- The calls a handler can make on a `CategoryRepository`, with their arguments. -/
inductive CategoryCall where
  | GetAll
  | Create (category : Category)
  deriving DecidableEq, Repr

end models

/-! ## `app/api` -/

namespace api

/-- What a response carries: the JSON payload, or the error envelope with its message. -/
inductive Payload (α : Type) where
  | data (value : α)
  | error (message : String)

/-- A written response: status code and payload. -/
structure Response (α : Type) where
  status : Nat
  payload : Payload α

/-- Modelled from the spec: `api.OKResponse`, whose package is not among the sources;
success responses are the raw JSON payload with status 200. -/
def OKResponse {α : Type} (data : α) : Response α := ⟨http.StatusOK, .data data⟩

/-- Modelled from the spec: `api.ErrorResponse`, whose package is not among the sources;
errors use the shared envelope holding the message, with the status the caller gives. -/
def ErrorResponse {α : Type} (status : Nat) (message : String) : Response α :=
  ⟨status, .error message⟩

end api

/-- What serving one request amounts to: the repository calls made, in order, and the
response written (`none` when the handler panicked before writing one). -/
structure Served (Call α : Type) where
  calls : List Call
  response : Option (api.Response α)

/-! ## `app/catalog` -/

namespace catalog

open models

/-- The DTO `CategorySummary`. -/
structure CategorySummary where
  Code : String
  Name : String
  deriving DecidableEq, Repr

/-- The DTO `ProductResponse`; `Category` is omitted from the JSON when absent. -/
structure ProductResponse (D : decimal.Package) where
  Code : String
  Price : D.Float64
  Category : Option CategorySummary

/-- The DTO `CatalogResponse`. -/
structure CatalogResponse (D : decimal.Package) where
  Products : List (ProductResponse D)
  Total : Int

/-- The DTO `VariantResponse`. -/
structure VariantResponse (D : decimal.Package) where
  Name : String
  SKU : String
  Price : D.Float64

/-- The DTO `ProductDetailsResponse`. -/
structure ProductDetailsResponse (D : decimal.Package) where
  Code : String
  Price : D.Float64
  Category : Option CategorySummary
  Variants : List (VariantResponse D)

/-- The handler `CatalogHandler.HandleGet`: reads `offset`, `limit`, `category` and
`price_less_than` from the query string, calls `GetAll` once and maps the result. -/
def HandleGet (D : decimal.Package) (repo : ProductRepository) (r : http.Request) :
    Served ProductCall (CatalogResponse D) :=
  let offset : Int := 0
  let limit : Int := 10
  let offsetStr := r.Query.Get "offset"
  let offset : Int :=
    if offsetStr ≠ "" then
      match strconv.Atoi offsetStr with
      | .ok val => if val ≥ 0 then val else offset
      | .error _ => offset
    else offset
  let limitStr := r.Query.Get "limit"
  let limit : Int :=
    if limitStr ≠ "" then
      match strconv.Atoi limitStr with
      | .ok val =>
        if val < 1 then 1
        else if val > 100 then 100
        else val
      | .error _ => limit
    else limit
  let categoryCode := r.Query.Get "category"
  let priceStr := r.Query.Get "price_less_than"
  let priceLessThan : Option decimal.Decimal :=
    if priceStr ≠ "" then
      match D.NewFromString priceStr with
      | .ok price => some price
      | .error _ => none
    else none
  let call := ProductCall.GetAll offset limit categoryCode priceLessThan
  match repo.GetAll offset limit categoryCode priceLessThan with
  | (_, _, some _) =>
    ⟨[call], some (api.ErrorResponse http.StatusInternalServerError "failed to fetch products")⟩
  | (products, total, none) =>
    let productResponses : List (ProductResponse D) := products.map fun p =>
      { Code := p.Code
        Price := D.InexactFloat64 p.Price
        Category := match p.Category with
          | some c => some { Code := c.Code, Name := c.Name }
          | none => none }
    ⟨[call], some (api.OKResponse { Products := productResponses, Total := total })⟩

/-- The handler `CatalogHandler.HandleGetByCode`: looks one product up by the path
value `code` and resolves the price of each variant.  A lookup that reports no error
and yet hands back a nil product makes the handler dereference nil. -/
def HandleGetByCode (D : decimal.Package) (repo : ProductRepository) (r : http.Request) :
    Served ProductCall (ProductDetailsResponse D) :=
  let code := r.PathValue "code"
  if code = "" then
    ⟨[], some (api.ErrorResponse http.StatusBadRequest "product code is required")⟩
  else
    match repo.GetByCode code with
    | (_, some _) =>
      ⟨[.GetByCode code], some (api.ErrorResponse http.StatusNotFound "product not found")⟩
    | (none, none) => ⟨[.GetByCode code], none⟩
    | (some product, none) =>
      let variants : List (VariantResponse D) := product.Variants.map fun v =>
        let price := v.Price
        let price := if price.IsZero then product.Price else price
        { Name := v.Name, SKU := v.SKU, Price := D.InexactFloat64 price }
      let response : ProductDetailsResponse D :=
        { Code := product.Code
          Price := D.InexactFloat64 product.Price
          Category := match product.Category with
            | some c => some { Code := c.Code, Name := c.Name }
            | none => none
          Variants := variants }
      ⟨[.GetByCode code], some (api.OKResponse response)⟩

end catalog

/-! ## `encoding/json` -/

namespace json

/-- A JSON value, as the scanner of the package delimits it in its input. -/
inductive Value where
  | null
  | bool (b : Bool)
  | number (text : List Char)
  | string (s : String)
  | array (items : List Value)
  | object (members : List (String × Value))

/-- The scanner's `isSpace`. -/
def isSpace (c : Char) : Bool :=
  c = ' ' || c = '\t' || c = '\r' || c = '\n'

/-- Skips the white space in front of the next token. -/
def skipSpace : List Char → List Char
  | [] => []
  | c :: cs => if isSpace c then skipSpace cs else c :: cs

/-- The value of a hexadecimal digit. -/
def hexDigit (c : Char) : Option Nat :=
  if '0' ≤ c ∧ c ≤ '9' then some (c.toNat - 48)
  else if 'a' ≤ c ∧ c ≤ 'f' then some (c.toNat - 87)
  else if 'A' ≤ c ∧ c ≤ 'F' then some (c.toNat - 55)
  else none

/-- The helper `getu4`: the code unit of an escape `\uXXXX` at the head of the text, and
the text after it. -/
def getu4 : List Char → Option (Nat × List Char)
  | '\\' :: 'u' :: a :: b :: c :: d :: rest =>
    match hexDigit a, hexDigit b, hexDigit c, hexDigit d with
    | some a, some b, some c, some d => some (((a * 16 + b) * 16 + c) * 16 + d, rest)
    | _, _, _, _ => none
  | _ => none

/-- A string literal after its opening quote: the text it denotes and what follows the
closing quote.  A control character, an unknown escape or a missing closing quote is
a syntax error; a surrogate escape that is not the first half of a valid pair
denotes U+FFFD. -/
def scanString : Nat → List Char → List Char → Option (String × List Char)
  | 0, _, _ => none
  | fuel + 1, cs, acc =>
    match cs with
    | [] => none
    | '"' :: rest => some (String.mk acc, rest)
    | '\\' :: rest =>
      match rest with
      | '"' :: rest => scanString fuel rest (acc ++ ['"'])
      | '\\' :: rest => scanString fuel rest (acc ++ ['\\'])
      | '/' :: rest => scanString fuel rest (acc ++ ['/'])
      | 'b' :: rest => scanString fuel rest (acc ++ [Char.ofNat 8])
      | 'f' :: rest => scanString fuel rest (acc ++ [Char.ofNat 12])
      | 'n' :: rest => scanString fuel rest (acc ++ ['\n'])
      | 'r' :: rest => scanString fuel rest (acc ++ ['\r'])
      | 't' :: rest => scanString fuel rest (acc ++ ['\t'])
      | 'u' :: _ =>
        match getu4 cs with
        | none => none
        | some (rr, rest) =>
          if 0xD800 ≤ rr ∧ rr < 0xE000 then
            match getu4 rest with
            | some (rr1, rest1) =>
              if rr < 0xDC00 ∧ 0xDC00 ≤ rr1 ∧ rr1 < 0xE000 then
                scanString fuel rest1
                  (acc ++ [Char.ofNat ((rr - 0xD800) * 1024 + (rr1 - 0xDC00) + 0x10000)])
              else scanString fuel rest (acc ++ [Char.ofNat 0xFFFD])
            | none => scanString fuel rest (acc ++ [Char.ofNat 0xFFFD])
          else scanString fuel rest (acc ++ [Char.ofNat rr])
      | _ => none
    | c :: rest => if c.toNat < 0x20 then none else scanString fuel rest (acc ++ [c])

/-- A number literal: an optional minus sign, `0` or a run of digits that does not
start with `0`, an optional fraction and an optional exponent; the literal ends at the
first character that cannot continue it. -/
def scanNumber (cs : List Char) : Option (Value × List Char) :=
  let signed : List Char × List Char :=
    match cs with
    | '-' :: rest => (['-'], rest)
    | _ => ([], cs)
  let integer : Option (List Char × List Char) :=
    match signed.2 with
    | [] => none
    | c :: rest =>
      if c = '0' then some (signed.1 ++ ['0'], rest)
      else if '1' ≤ c ∧ c ≤ '9' then
        some (signed.1 ++ c :: rest.takeWhile Char.isDigit, rest.dropWhile Char.isDigit)
      else none
  match integer with
  | none => none
  | some (text, rest) =>
    let fraction : Option (List Char × List Char) :=
      match rest with
      | '.' :: rest1 =>
        if rest1.takeWhile Char.isDigit = [] then none
        else some (text ++ '.' :: rest1.takeWhile Char.isDigit, rest1.dropWhile Char.isDigit)
      | _ => some (text, rest)
    match fraction with
    | none => none
    | some (text, rest) =>
      match rest with
      | c :: rest1 =>
        if c = 'e' ∨ c = 'E' then
          let exponent : List Char × List Char :=
            match rest1 with
            | '+' :: rest2 => ([c, '+'], rest2)
            | '-' :: rest2 => ([c, '-'], rest2)
            | _ => ([c], rest1)
          if exponent.2.takeWhile Char.isDigit = [] then none
          else some (.number (text ++ exponent.1 ++ exponent.2.takeWhile Char.isDigit),
            exponent.2.dropWhile Char.isDigit)
        else some (.number text, rest)
      | [] => some (.number text, rest)

/-- The scanner's `maxNestingDepth`. -/
def maxNestingDepth : Nat := 10000

mutual

/-- The JSON value at the head of the text (white space already skipped) and the text
after it, or `none` when the text does not start with a complete, well-formed value.
`depth` counts the arrays and objects the value stands in. -/
def scanValue : Nat → Nat → List Char → Option (Value × List Char)
  | 0, _, _ => none
  | fuel + 1, depth, cs =>
    match cs with
    | '{' :: rest =>
      if depth + 1 > maxNestingDepth then none
      else
        match skipSpace rest with
        | '}' :: rest1 => some (.object [], rest1)
        | rest1 => scanMembers fuel (depth + 1) rest1 []
    | '[' :: rest =>
      if depth + 1 > maxNestingDepth then none
      else
        match skipSpace rest with
        | ']' :: rest1 => some (.array [], rest1)
        | rest1 => scanItems fuel (depth + 1) rest1 []
    | '"' :: rest =>
      match scanString (rest.length + 1) rest [] with
      | some (s, rest1) => some (.string s, rest1)
      | none => none
    | 't' :: 'r' :: 'u' :: 'e' :: rest => some (.bool true, rest)
    | 'f' :: 'a' :: 'l' :: 's' :: 'e' :: rest => some (.bool false, rest)
    | 'n' :: 'u' :: 'l' :: 'l' :: rest => some (.null, rest)
    | c :: _ => if c = '-' ∨ c.isDigit then scanNumber cs else none
    | [] => none

/-- The members of an object from the opening quote of a key on, up to the closing
brace. -/
def scanMembers : Nat → Nat → List Char → List (String × Value) → Option (Value × List Char)
  | 0, _, _, _ => none
  | fuel + 1, depth, cs, acc =>
    match cs with
    | '"' :: rest =>
      match scanString (rest.length + 1) rest [] with
      | none => none
      | some (key, rest1) =>
        match skipSpace rest1 with
        | ':' :: rest2 =>
          match scanValue fuel depth (skipSpace rest2) with
          | none => none
          | some (v, rest3) =>
            match skipSpace rest3 with
            | ',' :: rest4 => scanMembers fuel depth (skipSpace rest4) (acc ++ [(key, v)])
            | '}' :: rest4 => some (.object (acc ++ [(key, v)]), rest4)
            | _ => none
        | _ => none
    | _ => none

/-- The items of an array from the first character of an item on, up to the closing
bracket. -/
def scanItems : Nat → Nat → List Char → List Value → Option (Value × List Char)
  | 0, _, _, _ => none
  | fuel + 1, depth, cs, acc =>
    match scanValue fuel depth cs with
    | none => none
    | some (v, rest) =>
      match skipSpace rest with
      | ',' :: rest1 => scanItems fuel depth (skipSpace rest1) (acc ++ [v])
      | ']' :: rest1 => some (.array (acc ++ [v]), rest1)
      | _ => none

end

/-- The first JSON value of an input and what follows it: what `Decoder.Decode` reads
with `readValue`.  Every nested call consumes a character, so the length of the input
bounds the recursion. -/
def firstValue (data : String) : Option (Value × List Char) :=
  scanValue (data.length + 1) 0 (skipSpace data.data)

/-- The package's `Valid`: the input is one JSON value with nothing but white space
around it. -/
def Valid (data : String) : Bool :=
  match firstValue data with
  | some (_, rest) => skipSpace rest = []
  | none => false

/-- The name the package gives the kind of a value in an `UnmarshalTypeError`. -/
def Value.kind : Value → String
  | .null => "null"
  | .bool _ => "bool"
  | .number _ => "number"
  | .string _ => "string"
  | .array _ => "array"
  | .object _ => "object"

end json

/-! ## `app/categories` -/

namespace categories

open models

/-- The DTO `CategoryResponse`. -/
structure CategoryResponse where
  Code : String
  Name : String
  deriving DecidableEq, Repr

/-- The DTO `CreateCategoryRequest`; a field the body does not set keeps Go's zero
value, the empty string. -/
structure CreateCategoryRequest where
  Code : String := ""
  Name : String := ""
  deriving DecidableEq, Repr

/-- What `json.NewDecoder(r.Body).Decode(&req)` does to a request body: the state it
leaves `req` in and the error it reports.  The handler is written against any such
decoder; `DecodeJSON` below is the one of `encoding/json`. -/
abbrev Decoder := String → CreateCategoryRequest × Option Error

/-- The rule by which the decoder matches an object key with the name of a struct
field once no field has exactly that name: equality up to the case of ASCII letters.
(The two letters the package also folds from outside ASCII, `k` and `s`, occur in
neither field name of the request.) -/
def equalFold (key name : String) : Bool :=
  key.data.map Char.toUpper = name.data.map Char.toUpper

/-- Storing the value of a member in a string field: a string is stored, `null` leaves
the field alone, any other value is a type error and leaves the field alone. -/
def storeString (v : json.Value) (field : String) : String × Option Error :=
  match v with
  | .string s => (s, none)
  | .null => (field, none)
  | other => (field, some ("json: cannot unmarshal " ++ other.kind ++ " into a field of type string"))

/-- Decoding the members of an object into the request, in the order of the text: a
member whose key matches `code` or `name` is stored in that field (a later member
overwrites an earlier one), any other member is skipped; the first type error is
kept and reported at the end. -/
def unmarshalMembers :
    List (String × json.Value) → CreateCategoryRequest → Option Error →
      CreateCategoryRequest × Option Error
  | [], req, err => (req, err)
  | (key, v) :: rest, req, err =>
    if equalFold key "code" then
      unmarshalMembers rest { req with Code := (storeString v req.Code).1 }
        (err <|> (storeString v req.Code).2)
    else if equalFold key "name" then
      unmarshalMembers rest { req with Name := (storeString v req.Name).1 }
        (err <|> (storeString v req.Name).2)
    else unmarshalMembers rest req err

/-- The call `json.NewDecoder(r.Body).Decode(&req)` as the package carries it out: it
reads the first JSON value of the body, without looking at what follows it, and
decodes that value into the zero request; an input that does not start with a
complete JSON value is an error, a value that is neither an object nor `null` is a
type error, and `null` leaves the request as it is. -/
def DecodeJSON : Decoder := fun body =>
  match json.firstValue body with
  | none => ({}, some "json: syntax error or unexpected end of input")
  | some (.object members, _) => unmarshalMembers members {} none
  | some (.null, _) => ({}, none)
  | some (v, _) =>
    ({}, some ("json: cannot unmarshal " ++ v.kind ++ " into a value of type CreateCategoryRequest"))

/-- The handler `CategoriesHandler.HandleGet`: lists all categories. -/
def HandleGet (repo : CategoryRepository) (_r : http.Request) :
    Served CategoryCall (List CategoryResponse) :=
  match repo.GetAll () with
  | (_, some _) =>
    ⟨[.GetAll], some (api.ErrorResponse http.StatusInternalServerError "failed to fetch categories")⟩
  | (categories, none) =>
    let responses : List CategoryResponse :=
      categories.map fun c => { Code := c.Code, Name := c.Name }
    ⟨[.GetAll], some (api.OKResponse responses)⟩

/-- The handler `CategoriesHandler.HandleCreate`: decodes the body, requires `code` and
`name`, calls `Create` once and answers with the category as `Create` left it. -/
def HandleCreate (Decode : Decoder) (repo : CategoryRepository) (r : http.Request) :
    Served CategoryCall CategoryResponse :=
  match Decode r.Body with
  | (_, some _) => ⟨[], some (api.ErrorResponse http.StatusBadRequest "invalid request body")⟩
  | (req, none) =>
    if req.Code = "" ∨ req.Name = "" then
      ⟨[], some (api.ErrorResponse http.StatusBadRequest "code and name are required")⟩
    else
      let category : Category := { Code := req.Code, Name := req.Name }
      match repo.Create category with
      | (_, some _) =>
        ⟨[.Create category],
          some (api.ErrorResponse http.StatusInternalServerError "failed to create category")⟩
      | (created, none) =>
        ⟨[.Create category],
          some (api.OKResponse { Code := created.Code, Name := created.Name })⟩

end categories

/-! ## `gorm` and the product repository of `models` -/

namespace decimal

/-- Exact comparison of two decimals as numbers, the way the database compares a
`decimal` column with a `decimal` argument: both unscaled values are brought to the
smaller of the two exponents and compared as integers. -/
def Decimal.lt (a b : Decimal) : Bool :=
  let m := min a.exp b.exp
  a.value * 10 ^ (a.exp - m).toNat < b.value * 10 ^ (b.exp - m).toNat

end decimal

namespace gorm

/-- A row of table `products`: the columns of the entity `Product` (its associations
`Category` and `Variants` are not columns, they are loaded by `Preload`). -/
structure ProductRow where
  ID : Nat
  Code : String
  Price : decimal.Decimal
  CategoryID : Option Nat := none
  deriving DecidableEq, Repr

/-- The two statements `GetAll` sends to the database. -/
inductive StatementKind where
  | count
  | find
  deriving DecidableEq, Repr

/-- What stands behind a `*gorm.DB` handle during one call: the rows of the three
tables, each in the order the engine yields them when no `ORDER BY` is given, and the
error a statement of either kind meets (a lost connection, a timeout), if any. -/
structure DB where
  categories : List models.Category := []
  products : List ProductRow := []
  variants : List models.Variant := []
  failure : StatementKind → Option Error := fun _ => none

/-- A row of a query on `products`: the product row and, once `categories` is joined,
the category row joined to it. -/
structure Row where
  product : ProductRow
  category : Option models.Category := none

/-- The statement a chain of calls on the handle builds up: the rows of its `FROM`
clause, the conjuncts of its `WHERE` clause, the associations to preload and the
`OFFSET` and `LIMIT` asked for. -/
structure Statement where
  db : DB
  rows : List Row
  conds : List (Row → Bool) := []
  preloads : List String := []
  offset : Int := 0
  limit : Option Int := none

/-- The call `db.Model(&Product{})`: a statement over the rows of `products`. -/
def DB.Model (db : DB) : Statement :=
  { db := db, rows := db.products.map fun p => { product := p } }

/-- The call `Joins("JOIN categories ON categories.id = products.category_id")`: an
inner join, one row for every category row whose id is the product's category id
(none for a product whose category id is null). -/
def Statement.JoinsCategories (s : Statement) : Statement :=
  { s with
    rows := s.rows.flatMap (fun row =>
      (s.db.categories.filter (fun c => row.product.CategoryID = some c.ID)).map
        (fun c => { row with category := some c })) }

/-- The call `Where(...)`: one more conjunct. -/
def Statement.Where (s : Statement) (cond : Row → Bool) : Statement :=
  { s with conds := s.conds ++ [cond] }

/-- The condition `categories.code = ?`, with strings equal when they are the same
text. -/
def categoryCodeIs (code : String) : Row → Bool := fun row =>
  match row.category with
  | some c => c.Code = code
  | none => false

/-- The condition `products.price < ?`. -/
def priceBelow (bound : decimal.Decimal) : Row → Bool := fun row =>
  row.product.Price.lt bound

/-- The call `Preload(name)`. -/
def Statement.Preload (s : Statement) (name : String) : Statement :=
  { s with preloads := s.preloads ++ [name] }

/-- The call `Offset(offset)`. -/
def Statement.Offset (s : Statement) (offset : Int) : Statement :=
  { s with offset := offset }

/-- The call `Limit(limit)`. -/
def Statement.Limit (s : Statement) (limit : Int) : Statement :=
  { s with limit := some limit }

/-- The rows of the statement that satisfy every conjunct of its `WHERE` clause. -/
def Statement.selected (s : Statement) : List Row :=
  s.rows.filter fun row => s.conds.all fun cond => cond row

/-- The entity scanned from a product row, with the associations named in `preloads`
loaded: `Category` is the category row whose id is the product's category id,
`Variants` the variant rows whose product id is the product's id. -/
def DB.load (db : DB) (preloads : List String) (p : ProductRow) : models.Product :=
  { ID := p.ID
    Code := p.Code
    Price := p.Price
    CategoryID := p.CategoryID
    Category :=
      if "Category" ∈ preloads then
        match p.CategoryID with
        | some id => db.categories.find? (fun c => c.ID = id)
        | none => none
      else none
    Variants :=
      if "Variants" ∈ preloads then db.variants.filter (fun v => v.ProductID = p.ID)
      else [] }

/-- The call `Count(&total)`: the number of selected rows, or the error met. -/
def Statement.Count (s : Statement) : Except Error Int :=
  match s.db.failure .count with
  | some err => .error err
  | none => .ok s.selected.length

/-- The call `Find(&products)`: the selected rows after the `OFFSET` and `LIMIT`
clauses, scanned and preloaded, or the error met.  The library writes an `OFFSET`
clause only for a positive offset and a `LIMIT` clause only for a limit that is not
negative. -/
def Statement.Find (s : Statement) : Except Error (List models.Product) :=
  match s.db.failure .find with
  | some err => .error err
  | none =>
    let rows := s.selected
    let rows := if s.offset > 0 then rows.drop s.offset.toNat else rows
    let rows :=
      match s.limit with
      | some limit => if limit ≥ 0 then rows.take limit.toNat else rows
      | none => rows
    .ok (rows.map fun row => s.db.load s.preloads row.product)

end gorm

namespace models

/-- The struct `ProductsRepository` of `models/products_repository.go`. -/
structure ProductsRepository where
  db : gorm.DB

/-- The constructor `NewProductsRepository`. -/
def NewProductsRepository (db : gorm.DB) : ProductsRepository := { db := db }

/-- The method `ProductsRepository.GetAll`: builds the filtered query, counts its
rows, then fetches one page of them with category and variants preloaded. -/
def ProductsRepository.GetAll (r : ProductsRepository) (offset limit : Int)
    (categoryCode : String) (priceLessThan : Option decimal.Decimal) :
    List Product × Int × Option Error :=
  let query := r.db.Model
  let query :=
    if categoryCode ≠ "" then
      query.JoinsCategories.Where (gorm.categoryCodeIs categoryCode)
    else query
  let query :=
    match priceLessThan with
    | some bound => query.Where (gorm.priceBelow bound)
    | none => query
  match query.Count with
  | .error err => ([], 0, some err)
  | .ok total =>
    match ((((query.Preload "Category").Preload "Variants").Offset offset).Limit limit).Find with
    | .error err => ([], 0, some err)
    | .ok products => (products, total, none)

/-- The filter of the catalog listing: a product row matches when the category code
asked for is empty or the row's category id is the id of a category with that code,
and the price bound is nil or the row's price is strictly below it. -/
def Matches (db : gorm.DB) (categoryCode : String) (priceLessThan : Option decimal.Decimal)
    (p : gorm.ProductRow) : Prop :=
  (categoryCode = "" ∨ ∃ c ∈ db.categories, p.CategoryID = some c.ID ∧ c.Code = categoryCode) ∧
  (priceLessThan = none ∨ ∃ bound, priceLessThan = some bound ∧ p.Price.toRat < bound.toRat)

/-- Whether a product row matches is decidable. -/
instance Matches.decidable (db : gorm.DB) (categoryCode : String)
    (priceLessThan : Option decimal.Decimal) (p : gorm.ProductRow) :
    Decidable (Matches db categoryCode priceLessThan p) :=
  match priceLessThan with
  | none =>
    decidable_of_iff
      (categoryCode = "" ∨
        ∃ c ∈ db.categories, p.CategoryID = some c.ID ∧ c.Code = categoryCode)
      (by simp [Matches])
  | some bound =>
    decidable_of_iff
      ((categoryCode = "" ∨
        ∃ c ∈ db.categories, p.CategoryID = some c.ID ∧ c.Code = categoryCode) ∧
        p.Price.toRat < bound.toRat)
      (by simp [Matches])

/-- The row a product entity was scanned from: its column fields. -/
def Product.row (p : Product) : gorm.ProductRow :=
  { ID := p.ID, Code := p.Code, Price := p.Price, CategoryID := p.CategoryID }

/-- The database of the examples: two categories, three products in storage order (the
last without a category) and one variant. -/
def sampleDB : gorm.DB where
  categories :=
    [ { ID := 1, Code := "clothing", Name := "Clothing" },
      { ID := 2, Code := "shoes", Name := "Shoes" } ]
  products :=
    [ { ID := 1, Code := "PROD001", Price := ⟨1099, -2⟩, CategoryID := some 1 },
      { ID := 2, Code := "PROD002", Price := ⟨25, 0⟩, CategoryID := some 1 },
      { ID := 3, Code := "PROD003", Price := ⟨500, -2⟩, CategoryID := some 2 },
      { ID := 4, Code := "PROD004", Price := ⟨1250, -2⟩, CategoryID := some 1 },
      { ID := 5, Code := "PROD005", Price := ⟨7, 0⟩ } ]
  variants :=
    [ { ID := 1, ProductID := 1, Name := "Variant A", SKU := "SKU001A", Price := ⟨1199, -2⟩ } ]

end models

/-! ## Lemmas on `strconv` -/

namespace strconv

/-- Reading one more digit. -/
theorem digitsValue_cons (c : Char) (cs : List Char) (n : Nat) :
    digitsValue (c :: cs) n = digitsValue cs (n * 10 + (c.toNat - 48)) := rfl

/-- Reading further digits never lowers the accumulated value. -/
theorem le_digitsValue (s : List Char) : ∀ n, n ≤ digitsValue s n := by
  induction s with
  | nil => intro n; exact le_refl n
  | cons c cs ih =>
    intro n
    rw [digitsValue_cons]
    have := ih (n * 10 + (c.toNat - 48))
    omega

/-- On a run of digits the loop of `ParseUint` yields the value denoted, or a range
error when that value exceeds `maxVal`. -/
theorem parseUintLoop_digits (maxVal : Nat) (s : List Char)
    (hd : ∀ c ∈ s, c.isDigit = true) :
    ∀ n, n ≤ maxVal → parseUintLoop maxVal s n =
      if digitsValue s n ≤ maxVal then .ok (digitsValue s n) else .error .ErrRange := by
  induction s with
  | nil =>
    intro n h
    simp [parseUintLoop, digitsValue, h]
  | cons c cs ih =>
    intro n _
    have hc : c.isDigit = true := hd c (List.mem_cons_self _ _)
    have hcs : ∀ x ∈ cs, x.isDigit = true := fun x hx => hd x (List.mem_cons_of_mem _ hx)
    rw [digitsValue_cons]
    simp only [parseUintLoop, hc, if_true]
    by_cases h1 : n * 10 + (c.toNat - 48) > maxVal
    · have := le_digitsValue cs (n * 10 + (c.toNat - 48))
      have h2 : ¬ digitsValue cs (n * 10 + (c.toNat - 48)) ≤ maxVal := by omega
      simp [h1, h2]
    · simp only [h1, if_false]
      exact ih hcs _ (by omega)

/-- A text with a byte that is not a digit makes the loop of `ParseUint` fail. -/
theorem parseUintLoop_error (maxVal : Nat) (s : List Char)
    (hd : s.all Char.isDigit = false) :
    ∀ n, ∃ e, parseUintLoop maxVal s n = .error e := by
  induction s with
  | nil => simp at hd
  | cons c cs ih =>
    intro n
    by_cases hc : c.isDigit = true
    · have hcs : cs.all Char.isDigit = false := by
        simpa [List.all_cons, hc] using hd
      simp only [parseUintLoop, hc, if_true]
      by_cases h1 : n * 10 + (c.toNat - 48) > maxVal
      · exact ⟨.ErrRange, by simp [h1]⟩
      · simp only [h1, if_false]
        exact ih hcs _
    · exact ⟨.ErrSyntax, by simp [parseUintLoop, hc]⟩

/-- The character of a decimal digit is an ASCII digit of that value. -/
theorem digitChar_isDigit : ∀ d, d < 10 →
    (Nat.digitChar d).isDigit = true ∧ (Nat.digitChar d).toNat - 48 = d := by
  decide

/-- The decimal text of a natural number consists of ASCII digits. -/
theorem toDigitsCore_isDigit (fuel : Nat) : ∀ (n : Nat) (ds : List Char),
    (∀ c ∈ ds, c.isDigit = true) → ∀ c ∈ Nat.toDigitsCore 10 fuel n ds, c.isDigit = true := by
  induction fuel with
  | zero => intro n ds h; simpa [Nat.toDigitsCore] using h
  | succ fuel ih =>
    intro n ds h
    have hd := (digitChar_isDigit (n % 10) (Nat.mod_lt _ (by decide))).1
    have h2 : ∀ c ∈ Nat.digitChar (n % 10) :: ds, c.isDigit = true := by
      intro c hc
      rcases List.mem_cons.mp hc with rfl | hc
      · exact hd
      · exact h c hc
    simp only [Nat.toDigitsCore]
    split
    · exact h2
    · exact ih _ _ h2

/-- Writing digits in front of a non-empty text leaves it non-empty. -/
theorem toDigitsCore_ne_nil (fuel : Nat) : ∀ (n : Nat) (ds : List Char),
    ds ≠ [] → Nat.toDigitsCore 10 fuel n ds ≠ [] := by
  induction fuel with
  | zero => intro n ds h; simpa [Nat.toDigitsCore] using h
  | succ fuel ih =>
    intro n ds _
    simp only [Nat.toDigitsCore]
    split
    · simp
    · exact ih _ _ (by simp)

/-- The digits written for `n` in front of `ds` read back as `n` followed by `ds`. -/
theorem toDigitsCore_value (fuel : Nat) : ∀ (n : Nat) (ds : List Char), n < fuel →
    digitsValue (Nat.toDigitsCore 10 fuel n ds) 0 = digitsValue ds n := by
  induction fuel with
  | zero => intro n ds h; omega
  | succ fuel ih =>
    intro n ds h
    have hd := (digitChar_isDigit (n % 10) (Nat.mod_lt _ (by decide))).2
    simp only [Nat.toDigitsCore]
    split
    · rename_i h0
      rw [digitsValue_cons, hd]
      congr 1
      omega
    · rename_i h0
      rw [ih (n / 10) _ (by omega), digitsValue_cons, hd]
      congr 1
      omega

/-- The decimal text of a natural number: non-empty, all digits, and it reads back as
the number. -/
theorem toDigits_spec (n : Nat) :
    Nat.toDigits 10 n ≠ [] ∧ (∀ c ∈ Nat.toDigits 10 n, c.isDigit = true) ∧
      digitsValue (Nat.toDigits 10 n) 0 = n := by
  refine ⟨?_, ?_, ?_⟩
  · unfold Nat.toDigits
    simp only [Nat.toDigitsCore]
    split
    · simp
    · exact toDigitsCore_ne_nil _ _ _ (by simp)
  · exact toDigitsCore_isDigit _ _ _ (by simp)
  · unfold Nat.toDigits
    rw [toDigitsCore_value _ _ _ (by omega)]
    rfl

/-- Base-10 `ParseUint` on the decimal text of a natural number. -/
theorem ParseUint_toDigits (n bitSize : Nat) :
    ParseUint (Nat.toDigits 10 n) bitSize =
      if n ≤ 2 ^ bitSize - 1 then .ok n else .error .ErrRange := by
  obtain ⟨hne, hd, hv⟩ := toDigits_spec n
  unfold ParseUint
  split
  · exact absurd ‹_› hne
  · rw [parseUintLoop_digits _ _ hd 0 (Nat.zero_le _), hv]

/-- A digit is not a sign. -/
theorem isDigit_ne_sign (c : Char) (h : c.isDigit = true) : c ≠ '+' ∧ c ≠ '-' := by
  constructor <;> (intro hc; subst hc; revert h; decide)

/-- `ParseInt` on the decimal text of a natural number. -/
theorem ParseInt_toDigits (m : Nat) :
    ParseInt (Nat.toDigits 10 m) 64 =
      if m < 2 ^ 63 then .ok (m : Int) else .error .ErrRange := by
  obtain ⟨hne, hd, _⟩ := toDigits_spec m
  have hp := ParseUint_toDigits m 64
  cases hs : Nat.toDigits 10 m with
  | nil => exact absurd hs hne
  | cons c rest =>
    have hc := isDigit_ne_sign c (hd c (by rw [hs]; exact List.mem_cons_self _ _))
    rw [hs] at hp
    simp only [ParseInt, hc.1, hc.2, or_self, if_false, hp, Nat.add_one_sub_one]
    by_cases h1 : m ≤ 2 ^ 64 - 1
    · rw [if_pos h1]
      by_cases h2 : m < 2 ^ 63
      · have h3 : ¬ (2 ^ 63 ≤ m) := by omega
        simp only [decide_False, Bool.false_eq_true, not_false_eq_true, true_and, false_and,
          ge_iff_le, gt_iff_lt, h2, h3, if_true, if_false]
      · have h3 : 2 ^ 63 ≤ m := by omega
        simp only [decide_False, Bool.false_eq_true, not_false_eq_true, true_and, false_and,
          ge_iff_le, gt_iff_lt, h2, h3, if_true, if_false]
    · rw [if_neg h1]
      have h2 : ¬ m < 2 ^ 63 := by omega
      simp only [h2, if_false]

/-- `ParseInt` on a minus sign followed by the decimal text of a natural number. -/
theorem ParseInt_neg_toDigits (m : Nat) :
    ParseInt ('-' :: Nat.toDigits 10 m) 64 =
      if m ≤ 2 ^ 63 then .ok (- (m : Int)) else .error .ErrRange := by
  have hp := ParseUint_toDigits m 64
  simp only [ParseInt, or_true, if_true, hp, Nat.add_one_sub_one]
  by_cases h1 : m ≤ 2 ^ 64 - 1
  · rw [if_pos h1]
    by_cases h2 : m ≤ 2 ^ 63
    · have h3 : ¬ (2 ^ 63 < m) := by omega
      simp only [decide_True, Bool.true_eq_false, not_true_eq_false, true_and, false_and,
        ge_iff_le, gt_iff_lt, h2, h3, if_true, if_false]
    · have h3 : 2 ^ 63 < m := by omega
      simp only [decide_True, Bool.true_eq_false, not_true_eq_false, true_and, false_and,
        ge_iff_le, gt_iff_lt, h2, h3, if_true, if_false]
  · rw [if_neg h1]
    have h2 : ¬ m ≤ 2 ^ 63 := by omega
    simp only [h2, if_false]

/-- Go's `Atoi` on the decimal text of an integer: the integer itself when it fits the
64-bit `int`, a range error otherwise. -/
theorem Atoi_toString (n : Int) :
    Atoi (toString n) =
      if - 2 ^ 63 ≤ n ∧ n < 2 ^ 63 then .ok n else .error .ErrRange := by
  unfold Atoi intSize
  cases n with
  | ofNat m =>
    have hdata : (toString (Int.ofNat m)).data = Nat.toDigits 10 m := rfl
    rw [hdata, ParseInt_toDigits, Int.ofNat_eq_coe]
    by_cases h2 : m < 2 ^ 63
    · have h3 : - 2 ^ 63 ≤ (m : Int) ∧ (m : Int) < 2 ^ 63 := by omega
      simp only [h2, h3, and_self, if_true]
    · have h3 : ¬ (- 2 ^ 63 ≤ (m : Int) ∧ (m : Int) < 2 ^ 63) := by omega
      simp only [h2, h3, if_false]
  | negSucc m =>
    have hdata : (toString (Int.negSucc m)).data = '-' :: Nat.toDigits 10 (m + 1) := rfl
    rw [hdata, ParseInt_neg_toDigits, Int.negSucc_eq]
    by_cases h2 : m + 1 ≤ 2 ^ 63
    · have h3 : - 2 ^ 63 ≤ -((m : Int) + 1) ∧ -((m : Int) + 1) < 2 ^ 63 := by omega
      simp only [h2, h3, and_self, if_true]
      simp
    · have h3 : ¬ (- 2 ^ 63 ≤ -((m : Int) + 1) ∧ -((m : Int) + 1) < 2 ^ 63) := by omega
      simp only [h2, h3, if_false]

/-- Text that is not numeric makes `Atoi` fail. -/
theorem Atoi_error_of_not_isNumeric (s : String) (h : isNumeric s = false) :
    ∃ e, Atoi s = .error e := by
  unfold Atoi
  unfold isNumeric at h
  cases hs : s.data with
  | nil => exact ⟨.ErrSyntax, rfl⟩
  | cons c rest =>
    rw [hs] at h
    simp only at h
    by_cases hc : c = '+' ∨ c = '-'
    · simp only [hc, if_true] at h
      simp only [ParseInt, hc, if_true]
      cases rest with
      | nil => exact ⟨.ErrSyntax, rfl⟩
      | cons d ds =>
        have hall : (d :: ds).all Char.isDigit = false := by simpa using h
        obtain ⟨e, he⟩ := parseUintLoop_error (2 ^ intSize - 1) (d :: ds) hall 0
        exact ⟨e, by simp [ParseUint, he]⟩
    · simp only [hc, if_false] at h
      simp only [ParseInt, hc, if_false]
      obtain ⟨e, he⟩ := parseUintLoop_error (2 ^ intSize - 1) (c :: rest) h 0
      exact ⟨e, by simp [ParseUint, he]⟩

end strconv

/-! ## Lemmas on the query string -/

namespace url

/-- A key that does not occur in the query string reads as the empty string. -/
theorem Values.Get_absent (v : Values) (key : String) (h : ∀ kv ∈ v, kv.1 ≠ key) :
    Values.Get v key = "" := by
  induction v with
  | nil => rfl
  | cons kv rest ih =>
    obtain ⟨k, x⟩ := kv
    have hk : k ≠ key := h (k, x) (List.mem_cons_self _ _)
    simp only [Values.Get, hk, if_false]
    exact ih (fun kv hkv => h kv (List.mem_cons_of_mem _ hkv))

end url

/-! ## The catalog listing: pagination -/

namespace catalog

open models

/-- The limit `HandleGet` derives from the text of the `limit` parameter. -/
theorem limit_of_text (s : String) :
    ∀ limit : Int,
      limit = (if s ≠ "" then
          match strconv.Atoi s with
          | .ok val => if val < 1 then 1 else if val > 100 then 100 else val
          | .error _ => 10
        else 10) →
      (1 ≤ limit ∧ limit ≤ 100) ∧
      ((s = "" ∨ ∃ e, strconv.Atoi s = .error e) → limit = 10) ∧
      (∀ n, strconv.Atoi s = .ok n →
        limit = if n < 1 then 1 else if n > 100 then 100 else n) := by
  intro limit hl
  by_cases hs : s = ""
  · simp only [hs, ne_eq, not_true_eq_false, if_false] at hl
    subst hl
    subst hs
    exact ⟨by omega, fun _ => rfl, fun n h => by cases h⟩
  · simp only [ne_eq, hs, not_false_eq_true, if_true] at hl
    cases ha : strconv.Atoi s with
    | error e =>
      simp only [ha] at hl
      subst hl
      exact ⟨by omega, fun _ => rfl, fun n h => by cases h⟩
    | ok val =>
      simp only [ha] at hl
      refine ⟨?_, ?_, ?_⟩
      · subst hl; split_ifs <;> omega
      · rintro (h | ⟨e, h⟩)
        · exact absurd h hs
        · cases h
      · intro n h
        cases h
        exact hl

/-- The offset `HandleGet` derives from the text of the `offset` parameter. -/
theorem offset_of_text (s : String) :
    ∀ offset : Int,
      offset = (if s ≠ "" then
          match strconv.Atoi s with
          | .ok val => if val ≥ 0 then val else 0
          | .error _ => 0
        else 0) →
      ((s = "" ∨ ∃ e, strconv.Atoi s = .error e) → offset = 0) ∧
      (∀ n, strconv.Atoi s = .ok n → offset = if 0 ≤ n then n else 0) := by
  intro offset hl
  by_cases hs : s = ""
  · simp only [hs, ne_eq, not_true_eq_false, if_false] at hl
    subst hl
    subst hs
    exact ⟨fun _ => rfl, fun n h => by cases h⟩
  · simp only [ne_eq, hs, not_false_eq_true, if_true] at hl
    cases ha : strconv.Atoi s with
    | error e =>
      simp only [ha] at hl
      subst hl
      exact ⟨fun _ => rfl, fun n h => by cases h⟩
    | ok val =>
      simp only [ha] at hl
      refine ⟨?_, ?_⟩
      · rintro (h | ⟨e, h⟩)
        · exact absurd h hs
        · cases h
      · intro n h
        cases h
        exact hl

/-- C1: whatever the text of the `limit` query parameter, `HandleGet` calls `GetAll`
once with a limit between 1 and 100; when the parameter is absent, empty or not
numeric the limit passed is the default 10. -/
theorem HandleGet_limit_range (D : decimal.Package) (repo : ProductRepository)
    (r : http.Request) :
    ∃ offset limit categoryCode priceLessThan,
      (HandleGet D repo r).calls = [ProductCall.GetAll offset limit categoryCode priceLessThan] ∧
      1 ≤ limit ∧ limit ≤ 100 ∧
      (((∀ kv ∈ r.Query, kv.1 ≠ "limit") ∨ r.Query.Get "limit" = "" ∨
          strconv.isNumeric (r.Query.Get "limit") = false) → limit = 10) := by
  have key := limit_of_text (r.Query.Get "limit") _ rfl
  have h10 : ((∀ kv ∈ r.Query, kv.1 ≠ "limit") ∨ r.Query.Get "limit" = "" ∨
      strconv.isNumeric (r.Query.Get "limit") = false) →
      (r.Query.Get "limit" = "" ∨ ∃ e, strconv.Atoi (r.Query.Get "limit") = .error e) := by
    rintro (h | h | h)
    · exact Or.inl (url.Values.Get_absent _ _ h)
    · exact Or.inl h
    · exact Or.inr (strconv.Atoi_error_of_not_isNumeric _ h)
  unfold HandleGet
  dsimp only
  split <;> exact ⟨_, _, _, _, rfl, key.1.1, key.1.2, fun h => key.2.1 (h10 h)⟩

/-- The request `limit=abc`, whose text is not numeric, as an instance of
`HandleGet_limit_range`: the limit passed is 10. -/
theorem HandleGet_limit_range_witness :
    ∃ offset limit categoryCode priceLessThan,
      (HandleGet decimal.exact emptyProducts { Query := [("limit", "abc")] }).calls =
        [ProductCall.GetAll offset limit categoryCode priceLessThan] ∧ limit = 10 := by
  obtain ⟨offset, limit, categoryCode, priceLessThan, hc, _, _, h10⟩ :=
    HandleGet_limit_range decimal.exact emptyProducts { Query := [("limit", "abc")] }
  exact ⟨offset, limit, categoryCode, priceLessThan, hc, h10 (Or.inr (Or.inr (by decide)))⟩

/-- C2, as amended: when the `limit` parameter is the decimal text of an integer `n`
that fits Go's 64-bit `int`, the limit passed to `GetAll` is 1 for `n < 1`, 100 for
`n > 100` and `n` otherwise; for an integer outside that range the parameter is
ignored and the default 10 is passed. -/
theorem HandleGet_limit_clamp (D : decimal.Package) (repo : ProductRepository)
    (r : http.Request) (n : Int) (h : r.Query.Get "limit" = toString n) :
    ∃ offset limit categoryCode priceLessThan,
      (HandleGet D repo r).calls = [ProductCall.GetAll offset limit categoryCode priceLessThan] ∧
      ((- 2 ^ 63 ≤ n ∧ n < 2 ^ 63) →
        limit = if n < 1 then 1 else if n > 100 then 100 else n) ∧
      (¬ (- 2 ^ 63 ≤ n ∧ n < 2 ^ 63) → limit = 10) := by
  have key := limit_of_text (r.Query.Get "limit") _ rfl
  have ha := strconv.Atoi_toString n
  rw [← h] at ha
  have h1 : (- 2 ^ 63 ≤ n ∧ n < 2 ^ 63) → strconv.Atoi (r.Query.Get "limit") = .ok n :=
    fun hr => by rw [ha, if_pos hr]
  have h2 : ¬ (- 2 ^ 63 ≤ n ∧ n < 2 ^ 63) →
      strconv.Atoi (r.Query.Get "limit") = .error .ErrRange :=
    fun hr => by rw [ha, if_neg hr]
  unfold HandleGet
  dsimp only
  split <;> exact ⟨_, _, _, _, rfl, fun hr => key.2.2 n (h1 hr),
    fun hr => key.2.1 (Or.inr ⟨_, h2 hr⟩)⟩

/-- The request `limit=200`, whose text is the decimal text of 200, is an instance of
`HandleGet_limit_clamp`. -/
theorem HandleGet_limit_clamp_witness :
    ∃ offset limit categoryCode priceLessThan,
      (HandleGet decimal.exact emptyProducts { Query := [("limit", "200")] }).calls =
        [ProductCall.GetAll offset limit categoryCode priceLessThan] ∧
      ((- 2 ^ 63 ≤ (200 : Int) ∧ (200 : Int) < 2 ^ 63) →
        limit = if (200 : Int) < 1 then 1 else if (200 : Int) > 100 then 100 else 200) ∧
      (¬ (- 2 ^ 63 ≤ (200 : Int) ∧ (200 : Int) < 2 ^ 63) → limit = 10) :=
  HandleGet_limit_clamp decimal.exact emptyProducts { Query := [("limit", "200")] } 200
    (by decide)

/-- C2 as stated fails: `limit=9223372036854775808` is the decimal text of the integer
`2 ^ 63`, which is above 100, yet the limit passed to `GetAll` is 10 and not 100. -/
theorem HandleGet_limit_beyond_int :
    toString ((2 : Int) ^ 63) = "9223372036854775808" ∧ (2 : Int) ^ 63 > 100 ∧
      (HandleGet decimal.exact emptyProducts
          { Query := [("limit", "9223372036854775808")] }).calls
        = [ProductCall.GetAll 0 10 "" none] ∧
      ¬ ∃ offset categoryCode priceLessThan,
        (HandleGet decimal.exact emptyProducts
            { Query := [("limit", "9223372036854775808")] }).calls
          = [ProductCall.GetAll offset 100 categoryCode priceLessThan] := by
  have hc : (HandleGet decimal.exact emptyProducts
      { Query := [("limit", "9223372036854775808")] }).calls
        = [ProductCall.GetAll 0 10 "" none] := by decide
  refine ⟨by decide, by decide, hc, ?_⟩
  rintro ⟨offset, categoryCode, priceLessThan, h⟩
  rw [hc] at h
  injection h with h _
  injection h with _ h _ _
  exact absurd h (by decide)

/-- C3, as amended: when the `offset` query parameter is absent, empty, not numeric or
the decimal text of a negative integer, the offset passed to `GetAll` is the default 0;
when it is the decimal text of an integer `n >= 0` that fits Go's 64-bit `int` the
offset passed is `n`, and for a larger integer the parameter is ignored and 0 is
passed; the limit passed is the same for every request with the same `limit` text,
whatever its offset. -/
theorem HandleGet_offset (D : decimal.Package) (repo : ProductRepository)
    (r : http.Request) :
    ∃ offset limit categoryCode priceLessThan,
      (HandleGet D repo r).calls = [ProductCall.GetAll offset limit categoryCode priceLessThan] ∧
      (((∀ kv ∈ r.Query, kv.1 ≠ "offset") ∨ r.Query.Get "offset" = "" ∨
          strconv.isNumeric (r.Query.Get "offset") = false) → offset = 0) ∧
      (∀ n : Int, r.Query.Get "offset" = toString n →
        (n < 0 → offset = 0) ∧ (0 ≤ n ∧ n < 2 ^ 63 → offset = n) ∧
          (2 ^ 63 ≤ n → offset = 0)) ∧
      (∀ (D' : decimal.Package) (repo' : ProductRepository) (r' : http.Request),
        r'.Query.Get "limit" = r.Query.Get "limit" →
        ∃ offset' categoryCode' priceLessThan',
          (HandleGet D' repo' r').calls =
            [ProductCall.GetAll offset' limit categoryCode' priceLessThan']) := by
  have key := offset_of_text (r.Query.Get "offset") _ rfl
  have h0 : ((∀ kv ∈ r.Query, kv.1 ≠ "offset") ∨ r.Query.Get "offset" = "" ∨
      strconv.isNumeric (r.Query.Get "offset") = false) →
      (r.Query.Get "offset" = "" ∨ ∃ e, strconv.Atoi (r.Query.Get "offset") = .error e) := by
    rintro (h | h | h)
    · exact Or.inl (url.Values.Get_absent _ _ h)
    · exact Or.inl h
    · exact Or.inr (strconv.Atoi_error_of_not_isNumeric _ h)
  have hn : ∀ (offset : Int),
      ((r.Query.Get "offset" = "" ∨ ∃ e, strconv.Atoi (r.Query.Get "offset") = .error e) →
        offset = 0) →
      (∀ n, strconv.Atoi (r.Query.Get "offset") = .ok n → offset = if 0 ≤ n then n else 0) →
      ∀ n : Int, r.Query.Get "offset" = toString n →
        (n < 0 → offset = 0) ∧ (0 ≤ n ∧ n < 2 ^ 63 → offset = n) ∧
          (2 ^ 63 ≤ n → offset = 0) := by
    intro offset k1 k2 n hs
    have ha := strconv.Atoi_toString n
    rw [← hs] at ha
    refine ⟨fun hlt => ?_, fun hr => ?_, fun hge => ?_⟩
    · by_cases hr : - 2 ^ 63 ≤ n ∧ n < 2 ^ 63
      · rw [if_pos hr] at ha
        rw [k2 n ha, if_neg (by omega)]
      · rw [if_neg hr] at ha
        exact k1 (Or.inr ⟨_, ha⟩)
    · rw [if_pos ⟨by omega, hr.2⟩] at ha
      rw [k2 n ha, if_pos hr.1]
    · rw [if_neg (by omega)] at ha
      exact k1 (Or.inr ⟨_, ha⟩)
  have hl : ∀ (D' : decimal.Package) (repo' : ProductRepository) (r' : http.Request),
      ∃ offset' categoryCode' priceLessThan',
        (HandleGet D' repo' r').calls =
          [ProductCall.GetAll offset'
            (if r'.Query.Get "limit" ≠ "" then
              match strconv.Atoi (r'.Query.Get "limit") with
              | .ok val => if val < 1 then 1 else if val > 100 then 100 else val
              | .error _ => 10
            else 10) categoryCode' priceLessThan'] := by
    intro D' repo' r'
    unfold HandleGet
    dsimp only
    split <;> exact ⟨_, _, _, rfl⟩
  unfold HandleGet
  dsimp only
  split <;> refine ⟨_, _, _, _, rfl, fun h => key.1 (h0 h), hn _ key.1 key.2, ?_⟩ <;>
    (intro D' repo' r' hsame
     rw [← hsame]
     exact hl D' repo' r')

/-- The request `offset=5&limit=20` as an instance of `HandleGet_offset`: its `offset`
text is the decimal text of 5, and the offset passed is 5. -/
theorem HandleGet_offset_witness :
    ∃ offset limit categoryCode priceLessThan,
      (HandleGet decimal.exact emptyProducts
          { Query := [("offset", "5"), ("limit", "20")] }).calls
        = [ProductCall.GetAll offset limit categoryCode priceLessThan] ∧ offset = 5 := by
  obtain ⟨offset, limit, categoryCode, priceLessThan, hc, _, hn, _⟩ :=
    HandleGet_offset decimal.exact emptyProducts { Query := [("offset", "5"), ("limit", "20")] }
  exact ⟨offset, limit, categoryCode, priceLessThan, hc, (hn 5 (by decide)).2.1 (by decide)⟩

/-- C3 as stated fails: `offset=9223372036854775808` is the decimal text of the integer
`2 ^ 63 >= 0`, yet the offset passed to `GetAll` is 0 and not that integer. -/
theorem HandleGet_offset_beyond_int :
    toString ((2 : Int) ^ 63) = "9223372036854775808" ∧ (0 : Int) ≤ 2 ^ 63 ∧
      (HandleGet decimal.exact emptyProducts
          { Query := [("offset", "9223372036854775808")] }).calls
        = [ProductCall.GetAll 0 10 "" none] ∧
      ¬ ∃ limit categoryCode priceLessThan,
        (HandleGet decimal.exact emptyProducts
            { Query := [("offset", "9223372036854775808")] }).calls
          = [ProductCall.GetAll (2 ^ 63) limit categoryCode priceLessThan] := by
  have hc : (HandleGet decimal.exact emptyProducts
      { Query := [("offset", "9223372036854775808")] }).calls
        = [ProductCall.GetAll 0 10 "" none] := by decide
  refine ⟨by decide, by decide, hc, ?_⟩
  rintro ⟨limit, categoryCode, priceLessThan, h⟩
  rw [hc] at h
  injection h with h _
  injection h with h _ _ _
  exact absurd h (by decide)

end catalog

/-! ## The catalog detail -/

namespace decimal

/-- A decimal is flagged zero by `IsZero` exactly when the number it denotes is zero. -/
theorem Decimal.IsZero_iff (d : Decimal) : d.IsZero = true ↔ d.toRat = 0 := by
  unfold Decimal.IsZero Decimal.toRat
  have h10 : ((10 : ℚ) ^ d.exp) ≠ 0 := zpow_ne_zero _ (by norm_num)
  simp [h10]

end decimal

namespace catalog

open models

/-- C4: when `GetByCode` returns a product, the response of `HandleGetByCode` lists one
entry per stored variant, in the stored order, with name and SKU unchanged; the price
of an entry is the parent product's price when the variant's stored price is exactly
zero and the variant's own price otherwise (each converted to `float64`). -/
theorem HandleGetByCode_variant_prices (D : decimal.Package) (repo : ProductRepository)
    (r : http.Request) (product : Product) (hcode : r.PathValue "code" ≠ "")
    (hrepo : repo.GetByCode (r.PathValue "code") = (some product, none)) :
    ∃ resp : ProductDetailsResponse D,
      (HandleGetByCode D repo r).response = some (api.OKResponse resp) ∧
      resp.Variants.length = product.Variants.length ∧
      ∀ (i : Nat) (v : Variant), product.Variants[i]? = some v →
        ∃ w : VariantResponse D, resp.Variants[i]? = some w ∧
          w.Name = v.Name ∧ w.SKU = v.SKU ∧
          w.Price = if v.Price.toRat = 0 then D.InexactFloat64 product.Price
            else D.InexactFloat64 v.Price := by
  unfold HandleGetByCode
  simp only [hcode, if_false, hrepo]
  refine ⟨_, rfl, by simp, ?_⟩
  intro i v hv
  refine ⟨_, by simp only [List.getElem?_map, hv, Option.map_some']; rfl, rfl, rfl, ?_⟩
  by_cases hz : v.Price.toRat = 0
  · have := (decimal.Decimal.IsZero_iff v.Price).mpr hz
    simp only [this, hz, if_true]
  · have : v.Price.IsZero = false := by
      cases h : v.Price.IsZero
      · rfl
      · exact absurd ((decimal.Decimal.IsZero_iff v.Price).mp h) hz
    simp only [this, hz, if_false, Bool.false_eq_true]

/-- The lookup of `PROD001` in a repository holding it is an instance of
`HandleGetByCode_variant_prices`. -/
theorem HandleGetByCode_variant_prices_witness :
    ∃ resp : ProductDetailsResponse decimal.exact,
      (HandleGetByCode decimal.exact (singleProduct PROD001)
          { PathValues := [("code", "PROD001")] }).response = some (api.OKResponse resp) ∧
      resp.Variants.length = PROD001.Variants.length ∧
      ∀ (i : Nat) (v : Variant), PROD001.Variants[i]? = some v →
        ∃ w : VariantResponse decimal.exact, resp.Variants[i]? = some w ∧
          w.Name = v.Name ∧ w.SKU = v.SKU ∧
          w.Price = if v.Price.toRat = 0 then decimal.exact.InexactFloat64 PROD001.Price
            else decimal.exact.InexactFloat64 v.Price :=
  HandleGetByCode_variant_prices decimal.exact (singleProduct PROD001)
    { PathValues := [("code", "PROD001")] } PROD001 (by decide) (by decide)

/-- C7: a request to `HandleGetByCode` whose path value `code` is empty is answered with
status 400 without any repository call; for a non-empty code `GetByCode` is called
exactly once, with that code unchanged, and nothing else is called. -/
theorem HandleGetByCode_code (D : decimal.Package) (repo : ProductRepository)
    (r : http.Request) :
    (r.PathValue "code" = "" →
      (HandleGetByCode D repo r).calls = [] ∧
      ∃ resp, (HandleGetByCode D repo r).response = some resp ∧ resp.status = 400) ∧
    (r.PathValue "code" ≠ "" →
      (HandleGetByCode D repo r).calls = [ProductCall.GetByCode (r.PathValue "code")]) := by
  constructor
  · intro h
    have hres : HandleGetByCode D repo r =
        ⟨[], some (api.ErrorResponse http.StatusBadRequest "product code is required")⟩ := by
      unfold HandleGetByCode
      simp only [h, if_true]
    rw [hres]
    exact ⟨rfl, _, rfl, rfl⟩
  · intro h
    unfold HandleGetByCode
    simp only [h, if_false]
    split <;> rfl

/-- Two instances of `HandleGetByCode_code`: without a path value the handler makes no
call, with the path value `PROD001` it calls `GetByCode "PROD001"`. -/
theorem HandleGetByCode_code_witness :
    (HandleGetByCode decimal.exact (singleProduct PROD001) {}).calls = [] ∧
    (HandleGetByCode decimal.exact (singleProduct PROD001)
        { PathValues := [("code", "PROD001")] }).calls = [ProductCall.GetByCode "PROD001"] :=
  ⟨((HandleGetByCode_code decimal.exact (singleProduct PROD001) {}).1 (by decide)).1,
    (HandleGetByCode_code decimal.exact (singleProduct PROD001)
      { PathValues := [("code", "PROD001")] }).2 (by decide)⟩

end catalog

/-! ## The catalog listing: price filter -/

namespace url

/-- A deleted key reads as the empty string. -/
theorem Values.Get_Del_self (v : Values) (key : String) :
    Values.Get (Values.Del v key) key = "" := by
  induction v with
  | nil => rfl
  | cons kv rest ih =>
    obtain ⟨k, x⟩ := kv
    by_cases hk : k = key
    · simp only [Values.Del, hk, if_true]
      exact ih
    · simp only [Values.Del, Values.Get, hk, if_false]
      exact ih

/-- Deleting a key leaves every other key as it was. -/
theorem Values.Get_Del_ne (v : Values) (key other : String) (h : other ≠ key) :
    Values.Get (Values.Del v key) other = Values.Get v other := by
  induction v with
  | nil => rfl
  | cons kv rest ih =>
    obtain ⟨k, x⟩ := kv
    by_cases hk : k = key
    · have hko : k ≠ other := fun h2 => h (h2 ▸ hk)
      simp only [Values.Del, Values.Get, hk, if_true]
      rw [ih, if_neg (hk ▸ hko)]
    · by_cases ho : k = other
      · subst ho
        simp only [Values.Del, Values.Get, hk, if_false, if_true]
      · simp only [Values.Del, Values.Get, hk, ho, if_false]
        exact ih

end url

namespace catalog

open models

/-- The price bound `HandleGet` derives from the text of `price_less_than`. -/
theorem bound_of_text (D : decimal.Package) (s : String) :
    ∀ bound : Option decimal.Decimal,
      bound = (if s ≠ "" then
          match D.NewFromString s with
          | .ok price => some price
          | .error _ => none
        else none) →
      (∀ p, bound = some p ↔ (s ≠ "" ∧ D.NewFromString s = .ok p)) ∧
      ((s = "" ∨ ∃ e, D.NewFromString s = .error e) → bound = none) := by
  intro bound hb
  by_cases hs : s = ""
  · simp only [hs, ne_eq, not_true_eq_false, if_false] at hb
    subst hb
    exact ⟨fun p => ⟨fun h => (by cases h), fun h => absurd hs h.1⟩, fun _ => rfl⟩
  · simp only [ne_eq, hs, not_false_eq_true, if_true] at hb
    cases hp : D.NewFromString s with
    | error e =>
      simp only [hp] at hb
      subst hb
      exact ⟨fun p => ⟨fun h => (by cases h), fun h => (by cases h.2)⟩, fun _ => rfl⟩
    | ok q =>
      simp only [hp] at hb
      subst hb
      refine ⟨fun p => ⟨fun h => ⟨hs, ?_⟩, fun h => ?_⟩, ?_⟩
      · cases h; rfl
      · cases h.2; rfl
      · rintro (h | ⟨e, h⟩)
        · exact absurd h hs
        · cases h

/-- The one call `HandleGet` makes, with the arguments as it derives them. -/
theorem HandleGet_calls (D : decimal.Package) (repo : ProductRepository) (r : http.Request) :
    (HandleGet D repo r).calls =
      [ProductCall.GetAll
        (if r.Query.Get "offset" ≠ "" then
          match strconv.Atoi (r.Query.Get "offset") with
          | .ok val => if val ≥ 0 then val else 0
          | .error _ => 0
        else 0)
        (if r.Query.Get "limit" ≠ "" then
          match strconv.Atoi (r.Query.Get "limit") with
          | .ok val => if val < 1 then 1 else if val > 100 then 100 else val
          | .error _ => 10
        else 10)
        (r.Query.Get "category")
        (if r.Query.Get "price_less_than" ≠ "" then
          match D.NewFromString (r.Query.Get "price_less_than") with
          | .ok price => some price
          | .error _ => none
        else none)] := by
  unfold HandleGet
  dsimp only
  split <;> rfl

/-- C5: `HandleGet` passes a price bound to `GetAll` exactly when `price_less_than` is a
non-empty string that the decimal parser accepts, and the bound is then the parsed
decimal; when the string is non-empty and does not parse, the bound is nil and the
calls made and the response are those of the same request without `price_less_than`. -/
theorem HandleGet_price_bound (D : decimal.Package) (repo : ProductRepository)
    (r : http.Request) :
    ∃ offset limit categoryCode priceLessThan,
      (HandleGet D repo r).calls = [ProductCall.GetAll offset limit categoryCode priceLessThan] ∧
      (∀ p, priceLessThan = some p ↔
        (r.Query.Get "price_less_than" ≠ "" ∧
          D.NewFromString (r.Query.Get "price_less_than") = .ok p)) ∧
      ((r.Query.Get "price_less_than" ≠ "" ∧
          ∃ e, D.NewFromString (r.Query.Get "price_less_than") = .error e) →
        priceLessThan = none ∧
        HandleGet D repo r =
          HandleGet D repo { r with Query := r.Query.Del "price_less_than" }) := by
  have key := bound_of_text D (r.Query.Get "price_less_than") _ rfl
  have hsame : (r.Query.Get "price_less_than" ≠ "" ∧
      ∃ e, D.NewFromString (r.Query.Get "price_less_than") = .error e) →
      HandleGet D repo r =
        HandleGet D repo { r with Query := r.Query.Del "price_less_than" } := by
    rintro ⟨hne, e, he⟩
    unfold HandleGet
    simp only [url.Values.Get_Del_self, url.Values.Get_Del_ne r.Query "price_less_than" "offset" (by decide),
      url.Values.Get_Del_ne r.Query "price_less_than" "limit" (by decide),
      url.Values.Get_Del_ne r.Query "price_less_than" "category" (by decide), he, ne_eq, not_true_eq_false,
      if_false, hne, not_false_eq_true, if_true]
  exact ⟨_, _, _, _, HandleGet_calls D repo r, key.1,
    fun h => ⟨key.2 (Or.inr h.2), hsame h⟩⟩

/-- Two instances of `HandleGet_price_bound`.  The request `price_less_than=abc`, whose
text the decimal parser rejects, passes no bound and its outcome is that of the request
without the parameter; the request `price_less_than=15.00` passes the bound the parser
reads from that text, the decimal 1500 * 10^-2, that is 15. -/
theorem HandleGet_price_bound_witness :
    (∃ offset limit categoryCode priceLessThan,
      (HandleGet decimal.exact emptyProducts { Query := [("price_less_than", "abc")] }).calls
        = [ProductCall.GetAll offset limit categoryCode priceLessThan] ∧
      priceLessThan = none ∧
      HandleGet decimal.exact emptyProducts { Query := [("price_less_than", "abc")] } =
        HandleGet decimal.exact emptyProducts
          { Query := url.Values.Del [("price_less_than", "abc")] "price_less_than" }) ∧
    (∃ offset limit categoryCode priceLessThan,
      (HandleGet decimal.exact emptyProducts { Query := [("price_less_than", "15.00")] }).calls
        = [ProductCall.GetAll offset limit categoryCode priceLessThan] ∧
      priceLessThan = some ⟨1500, -2⟩ ∧ (⟨1500, -2⟩ : decimal.Decimal).toRat = 15) := by
  constructor
  · obtain ⟨offset, limit, categoryCode, priceLessThan, hc, _, hn⟩ :=
      HandleGet_price_bound decimal.exact emptyProducts
        { Query := [("price_less_than", "abc")] }
    have h := hn ⟨by decide, ⟨_, rfl⟩⟩
    exact ⟨offset, limit, categoryCode, priceLessThan, hc, h.1, h.2⟩
  · obtain ⟨offset, limit, categoryCode, priceLessThan, hc, hp, _⟩ :=
      HandleGet_price_bound decimal.exact emptyProducts
        { Query := [("price_less_than", "15.00")] }
    refine ⟨offset, limit, categoryCode, priceLessThan, hc, (hp _).mpr ⟨by decide, ?_⟩, ?_⟩
    · rfl
    · norm_num [decimal.Decimal.toRat]

end catalog

/-! ## Category creation, successful listings and repository errors -/

namespace categories

open models

/-- Whatever the decoder, a body it rejects, or one whose decoded `code` or `name` is
empty, is answered with status 400 before `Create` is reached. -/
theorem rejects_of_decoded (Decode : Decoder) (repo : CategoryRepository)
    (r : http.Request)
    (h : (Decode r.Body).2 ≠ none ∨ (Decode r.Body).1.Code = "" ∨ (Decode r.Body).1.Name = "") :
    (HandleCreate Decode repo r).calls = [] ∧
    ∃ resp, (HandleCreate Decode repo r).response = some resp ∧ resp.status = 400 := by
  have hres : ∃ message, HandleCreate Decode repo r =
      ⟨[], some (api.ErrorResponse http.StatusBadRequest message)⟩ := by
    unfold HandleCreate
    rcases hd : Decode r.Body with ⟨req, err⟩
    rw [hd] at h
    cases err with
    | some e => exact ⟨_, rfl⟩
    | none =>
      have h2 : req.Code = "" ∨ req.Name = "" := by
        rcases h with h | h | h
        · exact absurd rfl h
        · exact Or.inl h
        · exact Or.inr h
      exact ⟨"code and name are required", by simp only [h2, if_true]⟩
  obtain ⟨message, hm⟩ := hres
  rw [hm]
  exact ⟨rfl, _, rfl, rfl⟩

/-- Members none of whose keys matches `code` leave the code of the request alone. -/
theorem unmarshalMembers_code (members : List (String × json.Value)) :
    ∀ (req : CreateCategoryRequest) (err : Option Error),
      (∀ kv ∈ members, equalFold kv.1 "code" = false) →
      (unmarshalMembers members req err).1.Code = req.Code := by
  induction members with
  | nil => intro req err _; rfl
  | cons kv rest ih =>
    intro req err h
    obtain ⟨key, v⟩ := kv
    have hk : equalFold key "code" = false := h (key, v) (List.mem_cons_self _ _)
    have hrest : ∀ kv ∈ rest, equalFold kv.1 "code" = false :=
      fun kv hkv => h kv (List.mem_cons_of_mem _ hkv)
    simp only [unmarshalMembers, hk, Bool.false_eq_true, if_false]
    split
    · rw [ih _ _ hrest]
    · exact ih _ _ hrest

/-- Members none of whose keys matches `name` leave the name of the request alone. -/
theorem unmarshalMembers_name (members : List (String × json.Value)) :
    ∀ (req : CreateCategoryRequest) (err : Option Error),
      (∀ kv ∈ members, equalFold kv.1 "name" = false) →
      (unmarshalMembers members req err).1.Name = req.Name := by
  induction members with
  | nil => intro req err _; rfl
  | cons kv rest ih =>
    intro req err h
    obtain ⟨key, v⟩ := kv
    have hk : equalFold key "name" = false := h (key, v) (List.mem_cons_self _ _)
    have hrest : ∀ kv ∈ rest, equalFold kv.1 "name" = false :=
      fun kv hkv => h kv (List.mem_cons_of_mem _ hkv)
    simp only [unmarshalMembers, hk, Bool.false_eq_true, if_false]
    split
    · rw [ih _ _ hrest]
    · exact ih _ _ hrest

/-- C6, as amended: a request to `HandleCreate` is answered with status 400, `Create`
not being called, whenever the decoder reports an error or the decoded `code` or
`name` is empty, whatever the decoder; with the JSON decoder this is the case of a
body that does not begin with a complete JSON value, and of a body that begins with
an object in which no member is keyed `code`, or none is keyed `name`. -/
theorem HandleCreate_rejects (repo : CategoryRepository) (r : http.Request) :
    (∀ Decode : Decoder,
      ((Decode r.Body).2 ≠ none ∨ (Decode r.Body).1.Code = "" ∨
          (Decode r.Body).1.Name = "") →
        (HandleCreate Decode repo r).calls = [] ∧
        ∃ resp, (HandleCreate Decode repo r).response = some resp ∧ resp.status = 400) ∧
    (json.firstValue r.Body = none →
      (HandleCreate DecodeJSON repo r).calls = [] ∧
      ∃ resp, (HandleCreate DecodeJSON repo r).response = some resp ∧ resp.status = 400) ∧
    (∀ members rest, json.firstValue r.Body = some (.object members, rest) →
      ((∀ kv ∈ members, equalFold kv.1 "code" = false) ∨
        (∀ kv ∈ members, equalFold kv.1 "name" = false)) →
      (HandleCreate DecodeJSON repo r).calls = [] ∧
      ∃ resp, (HandleCreate DecodeJSON repo r).response = some resp ∧ resp.status = 400) := by
  refine ⟨fun Decode h => rejects_of_decoded Decode repo r h, ?_, ?_⟩
  · intro hnone
    apply rejects_of_decoded
    left
    simp [DecodeJSON, hnone]
  · intro members rest hobj hmiss
    apply rejects_of_decoded
    right
    rcases hmiss with h | h
    · left
      simp only [DecodeJSON, hobj]
      exact unmarshalMembers_code members {} none h
    · right
      simp only [DecodeJSON, hobj]
      exact unmarshalMembers_name members {} none h

/-- Three instances of `HandleCreate_rejects` with the JSON decoder: the body of the
handler test "returns 400 when code is missing", which carries an empty code; the
body `invalid json`, which does not begin with a JSON value; and an object without
any member keyed `code`. -/
theorem HandleCreate_rejects_witness :
    ((HandleCreate DecodeJSON (categoriesHolding [])
        { Body := "\x7b\"code\":\"\",\"name\":\"Electronics\"\x7d" }).calls = [] ∧
      ∃ resp, (HandleCreate DecodeJSON (categoriesHolding [])
          { Body := "\x7b\"code\":\"\",\"name\":\"Electronics\"\x7d" }).response = some resp ∧
        resp.status = 400) ∧
    ((HandleCreate DecodeJSON (categoriesHolding []) { Body := "invalid json" }).calls = [] ∧
      ∃ resp, (HandleCreate DecodeJSON (categoriesHolding [])
          { Body := "invalid json" }).response = some resp ∧ resp.status = 400) ∧
    ((HandleCreate DecodeJSON (categoriesHolding [])
        { Body := "\x7b\"name\":\"Electronics\"\x7d" }).calls = [] ∧
      ∃ resp, (HandleCreate DecodeJSON (categoriesHolding [])
          { Body := "\x7b\"name\":\"Electronics\"\x7d" }).response = some resp ∧
        resp.status = 400) :=
  ⟨(HandleCreate_rejects (categoriesHolding [])
      { Body := "\x7b\"code\":\"\",\"name\":\"Electronics\"\x7d" }).1 DecodeJSON
      (Or.inr (Or.inl (by decide))),
    (HandleCreate_rejects (categoriesHolding []) { Body := "invalid json" }).2.1 rfl,
    (HandleCreate_rejects (categoriesHolding [])
      { Body := "\x7b\"name\":\"Electronics\"\x7d" }).2.2
      [("name", .string "Electronics")] [] rfl (Or.inl (by decide))⟩

/-- C6 as stated fails: the body made of the object `code: a, name: b` followed by the
words `trailing garbage` is not valid JSON, yet the decoder reads the object and
reports no error, `Create` is called and the response has status 200. -/
theorem HandleCreate_trailing_garbage :
    json.Valid "\x7b\"code\":\"a\",\"name\":\"b\"\x7d trailing garbage" = false ∧
    DecodeJSON "\x7b\"code\":\"a\",\"name\":\"b\"\x7d trailing garbage" =
      ({ Code := "a", Name := "b" }, none) ∧
    (HandleCreate DecodeJSON (categoriesHolding [])
        { Body := "\x7b\"code\":\"a\",\"name\":\"b\"\x7d trailing garbage" }).calls =
      [CategoryCall.Create { ID := 0, Code := "a", Name := "b" }] ∧
    ∃ resp, (HandleCreate DecodeJSON (categoriesHolding [])
        { Body := "\x7b\"code\":\"a\",\"name\":\"b\"\x7d trailing garbage" }).response =
          some resp ∧ resp.status = 200 := by
  refine ⟨by decide, by decide, by decide, _, rfl, rfl⟩

/-- C9: when the body decodes to a request with non-empty code `c` and non-empty name
`n` and `Create` succeeds (it reports no error and hands the category back under some
id, code and name as given), `Create` is the only call made, made once with a category
of code `c` and name `n`, and the response has status 200 and body `c`, `n`. -/
theorem HandleCreate_success (Decode : Decoder) (repo : CategoryRepository)
    (r : http.Request) (c n : String) (id : Nat)
    (hdec : Decode r.Body = ({ Code := c, Name := n }, none)) (hc : c ≠ "") (hn : n ≠ "")
    (hcreate : repo.Create { Code := c, Name := n } = ({ ID := id, Code := c, Name := n }, none)) :
    (HandleCreate Decode repo r).calls = [CategoryCall.Create { ID := 0, Code := c, Name := n }] ∧
    (HandleCreate Decode repo r).response = some ⟨200, .data { Code := c, Name := n }⟩ := by
  have hres : HandleCreate Decode repo r =
      ⟨[CategoryCall.Create { ID := 0, Code := c, Name := n }],
        some ⟨200, .data { Code := c, Name := n }⟩⟩ := by
    unfold HandleCreate
    simp only [hdec, hc, hn, or_self, if_false, hcreate]
    rfl
  rw [hres]
  exact ⟨rfl, rfl⟩

/-- The request of the handler test "creates a new category" is an instance of
`HandleCreate_success`. -/
theorem HandleCreate_success_witness :
    (HandleCreate DecodeJSON (categoriesHolding [])
        { Body := "\x7b\"code\":\"electronics\",\"name\":\"Electronics\"\x7d" }).calls =
      [CategoryCall.Create { ID := 0, Code := "electronics", Name := "Electronics" }] ∧
    (HandleCreate DecodeJSON (categoriesHolding [])
        { Body := "\x7b\"code\":\"electronics\",\"name\":\"Electronics\"\x7d" }).response =
      some ⟨200, .data { Code := "electronics", Name := "Electronics" }⟩ :=
  HandleCreate_success DecodeJSON (categoriesHolding [])
    { Body := "\x7b\"code\":\"electronics\",\"name\":\"Electronics\"\x7d" }
    "electronics" "Electronics" 1 (by decide) (by decide) (by decide) (by decide)

end categories

namespace catalog
open models

/-- C10: `HandleGet` answers a successful result `(products, total)` of `GetAll` with
status 200, the total unchanged and one entry per product, in the same order, each
carrying the product's code, its price (converted to `float64`) and, exactly when
the product has a category, that category's code and name; an empty result gives an
empty list, still with status 200. -/
theorem HandleGet_success (D : decimal.Package) (repo : ProductRepository)
    (r : http.Request) :
    ∃ offset limit categoryCode priceLessThan,
      (HandleGet D repo r).calls = [ProductCall.GetAll offset limit categoryCode priceLessThan] ∧
      ∀ (products : List Product) (total : Int),
        repo.GetAll offset limit categoryCode priceLessThan = (products, total, none) →
        ∃ resp : CatalogResponse D,
          (HandleGet D repo r).response = some ⟨200, .data resp⟩ ∧
          resp.Total = total ∧
          resp.Products.length = products.length ∧
          (∀ (i : Nat) (p : Product), products[i]? = some p →
            ∃ q : ProductResponse D, resp.Products[i]? = some q ∧
              q.Code = p.Code ∧ q.Price = D.InexactFloat64 p.Price ∧
              q.Category = p.Category.map (fun c => { Code := c.Code, Name := c.Name })) ∧
          (products = [] → resp.Products = []) := by
  refine ⟨_, _, _, _, HandleGet_calls D repo r, ?_⟩
  intro products total hrepo
  have hres : (HandleGet D repo r).response =
      some (api.OKResponse
        { Products := products.map fun p =>
            { Code := p.Code
              Price := D.InexactFloat64 p.Price
              Category := match p.Category with
                | some c => some { Code := c.Code, Name := c.Name }
                | none => none }
          Total := total }) := by
    unfold HandleGet
    simp only [hrepo]
  refine ⟨_, hres, rfl, by simp, ?_, ?_⟩
  · intro i p hp
    refine ⟨_, by simp only [List.getElem?_map, hp, Option.map_some']; rfl, rfl, rfl, ?_⟩
    cases p.Category <;> rfl
  · intro h
    subst h
    rfl

/-- The listing of a repository holding `PROD001`, as an instance of `HandleGet_success`. -/
theorem HandleGet_success_witness :
    ∃ resp : CatalogResponse decimal.exact,
      (HandleGet decimal.exact (singleProduct PROD001) {}).response = some ⟨200, .data resp⟩ ∧
      resp.Total = 1 ∧ resp.Products.length = 1 := by
  obtain ⟨offset, limit, categoryCode, priceLessThan, hc, h⟩ :=
    HandleGet_success decimal.exact (singleProduct PROD001) {}
  obtain ⟨resp, hr, ht, hl, _⟩ := h [PROD001] 1 rfl
  exact ⟨resp, hr, ht, hl⟩

end catalog

/-- C8: when the repository call a handler makes returns an error, the response is fixed
by the handler alone, whatever the error and whatever data came with it: status 500 with
a fixed message for the catalog listing, the category listing and the category creation
(with a decodable body carrying code and name), and status 404 with a fixed message for
the catalog detail (with a non-empty code); the payload is the error envelope, never
product, category or variant data. -/
theorem repository_error_responses :
    (∀ (D : decimal.Package) (repo : models.ProductRepository) (r : http.Request),
      ∃ offset limit categoryCode priceLessThan,
        (catalog.HandleGet D repo r).calls =
          [models.ProductCall.GetAll offset limit categoryCode priceLessThan] ∧
        ∀ e, (repo.GetAll offset limit categoryCode priceLessThan).2.2 = some e →
          (catalog.HandleGet D repo r).response =
            some ⟨500, .error "failed to fetch products"⟩) ∧
    (∀ (repo : models.CategoryRepository) (r : http.Request) (e : Error),
      (repo.GetAll ()).2 = some e →
        (categories.HandleGet repo r).response =
          some ⟨500, .error "failed to fetch categories"⟩) ∧
    (∀ (Decode : categories.Decoder) (repo : models.CategoryRepository) (r : http.Request)
        (e : Error),
      (Decode r.Body).2 = none → (Decode r.Body).1.Code ≠ "" → (Decode r.Body).1.Name ≠ "" →
      (repo.Create { Code := (Decode r.Body).1.Code, Name := (Decode r.Body).1.Name }).2 = some e →
        (categories.HandleCreate Decode repo r).response =
          some ⟨500, .error "failed to create category"⟩) ∧
    (∀ (D : decimal.Package) (repo : models.ProductRepository) (r : http.Request) (e : Error),
      r.PathValue "code" ≠ "" → (repo.GetByCode (r.PathValue "code")).2 = some e →
        (catalog.HandleGetByCode D repo r).response =
          some ⟨404, .error "product not found"⟩) := by
  refine ⟨?_, ?_, ?_, ?_⟩
  · intro D repo r
    refine ⟨_, _, _, _, catalog.HandleGet_calls D repo r, ?_⟩
    intro e he
    unfold catalog.HandleGet
    dsimp only
    split
    · rfl
    · rename_i heq
      rw [heq] at he
      cases he
  · intro repo r e he
    unfold categories.HandleGet
    split
    · rfl
    · rename_i heq
      rw [heq] at he
      cases he
  · intro Decode repo r e hd hc hn he
    unfold categories.HandleCreate
    rcases hdec : Decode r.Body with ⟨req, err⟩
    rw [hdec] at hd hc hn he
    simp only at hd hc hn he
    subst hd
    simp only [hc, hn, or_self, if_false]
    split
    · rfl
    · rename_i heq
      rw [heq] at he
      cases he
  · intro D repo r e hc he
    unfold catalog.HandleGetByCode
    simp only [hc, if_false]
    split
    · rfl
    · rename_i heq
      rw [heq] at he
      cases he
    · rename_i heq
      rw [heq] at he
      cases he

/-- Instances of `repository_error_responses` with repositories that hand data back
alongside their error. -/
theorem repository_error_responses_witness :
    (categories.HandleGet (models.failingCategories "database error") {}).response =
      some ⟨500, .error "failed to fetch categories"⟩ ∧
    (catalog.HandleGetByCode decimal.exact (models.failingProducts "database error")
        { PathValues := [("code", "PROD001")] }).response =
      some ⟨404, .error "product not found"⟩ :=
  ⟨repository_error_responses.2.1 (models.failingCategories "database error") {}
      "database error" rfl,
    repository_error_responses.2.2.2 decimal.exact (models.failingProducts "database error")
      { PathValues := [("code", "PROD001")] } "database error" (by decide) rfl⟩

/-! ## The product repository: filters, total and pagination -/

namespace decimal

/-- The comparison on a common scale is the comparison of the numbers denoted. -/
theorem Decimal.lt_iff (a b : Decimal) : a.lt b = true ↔ a.toRat < b.toRat := by
  unfold Decimal.lt Decimal.toRat
  simp only [decide_eq_true_eq]
  set m := min a.exp b.exp with hm
  have ha : a.exp = ((a.exp - m).toNat : Int) + m := by
    have : m ≤ a.exp := min_le_left _ _
    omega
  have hb : b.exp = ((b.exp - m).toNat : Int) + m := by
    have : m ≤ b.exp := min_le_right _ _
    omega
  have h10 : (0 : ℚ) < (10 : ℚ) ^ m := zpow_pos (by norm_num) m
  have ea : (10 : ℚ) ^ a.exp = (10 : ℚ) ^ (a.exp - m).toNat * (10 : ℚ) ^ m := by
    conv_lhs => rw [ha]
    rw [zpow_add₀ (by norm_num), zpow_natCast]
  have eb : (10 : ℚ) ^ b.exp = (10 : ℚ) ^ (b.exp - m).toNat * (10 : ℚ) ^ m := by
    conv_lhs => rw [hb]
    rw [zpow_add₀ (by norm_num), zpow_natCast]
  rw [ea, eb, ← mul_assoc, ← mul_assoc, mul_lt_mul_right h10]
  constructor
  · intro h
    exact_mod_cast h
  · intro h
    exact_mod_cast h

end decimal

namespace gorm

/-- Under a unique key at most one row carries a given key value. -/
theorem filter_key_length {α β : Type} [DecidableEq β] (f : α → β) (l : List α)
    (h : (l.map f).Nodup) (a : β) : (l.filter fun c => a = f c).length ≤ 1 := by
  induction l with
  | nil => simp
  | cons c cs ih =>
    rw [List.map_cons, List.nodup_cons] at h
    by_cases hc : a = f c
    · have hnone : cs.filter (fun c => a = f c) = [] := by
        rw [List.filter_eq_nil_iff]
        intro x hx hax
        have hax : a = f x := by simpa using hax
        exact h.1 (List.mem_map.mpr ⟨x, hx, by rw [← hax, hc]⟩)
      rw [List.filter_cons, if_pos (by simpa using hc), hnone]
      simp
    · rw [List.filter_cons, if_neg (by simpa using hc)]
      exact ih h.2

end gorm

namespace gorm

/-- The rows an inner join with `categories` yields for one product row. -/
theorem joined_one (db : DB) (hpk : (db.categories.map fun c => c.ID).Nodup)
    (code : String) (extra : ProductRow → Bool) (p : ProductRow) :
    ((((db.categories.filter fun c => p.CategoryID = some c.ID).map
        fun c => ({ product := p, category := some c } : Row)).filter
          fun row => categoryCodeIs code row && extra row.product).map fun row => row.product)
      = if (∃ c ∈ db.categories, p.CategoryID = some c.ID ∧ c.Code = code) ∧ extra p = true
          then [p] else [] := by
  have hsome : (db.categories.map fun c => some c.ID).Nodup := by
    have := List.Nodup.map (Option.some_injective Nat) hpk
    rwa [List.map_map] at this
  have hlen := filter_key_length (fun c : models.Category => some c.ID) db.categories hsome
    p.CategoryID
  have hmem : ∀ c, c ∈ (db.categories.filter fun c => p.CategoryID = some c.ID) ↔
      c ∈ db.categories ∧ p.CategoryID = some c.ID := by
    intro c
    simp [List.mem_filter]
  cases hL : (db.categories.filter fun c => p.CategoryID = some c.ID) with
  | nil =>
    have hno : ¬ ((∃ c ∈ db.categories, p.CategoryID = some c.ID ∧ c.Code = code) ∧
        extra p = true) := by
      rintro ⟨⟨c, hc, hid, _⟩, _⟩
      have := (hmem c).mpr ⟨hc, hid⟩
      rw [hL] at this
      cases this
    rw [if_neg hno]
    rfl
  | cons c rest =>
    cases rest with
    | cons d rest2 =>
      rw [hL] at hlen
      simp at hlen
    | nil =>
      have hc := (hmem c).mp (by rw [hL]; exact List.mem_cons_self _ _)
      have huniq : ∀ c', c' ∈ db.categories → p.CategoryID = some c'.ID → c' = c := by
        intro c' h1 h2
        have := (hmem c').mpr ⟨h1, h2⟩
        rw [hL] at this
        simpa using this
      by_cases hP : (∃ c ∈ db.categories, p.CategoryID = some c.ID ∧ c.Code = code) ∧
          extra p = true
      · obtain ⟨⟨c', h1, h2, h3⟩, h4⟩ := hP
        have hcode : c.Code = code := by rw [← huniq c' h1 h2]; exact h3
        rw [if_pos ⟨⟨c, hc.1, hc.2, hcode⟩, h4⟩]
        simp [categoryCodeIs, hcode, h4]
      · rw [if_neg hP]
        have : (categoryCodeIs code { product := p, category := some c } && extra p) = false := by
          by_contra hne
          simp only [Bool.not_eq_false, Bool.and_eq_true, categoryCodeIs,
            decide_eq_true_eq] at hne
          exact hP ⟨⟨c, hc.1, hc.2, hne.1⟩, hne.2⟩
        simp [this]

/-- The selected rows of a query on `products` joined with `categories`, filtered by
category code and a condition on the product row, are those of the product rows
that have a category with that code and satisfy the condition, in storage order. -/
theorem joined_selected (db : DB) (hpk : (db.categories.map fun c => c.ID).Nodup)
    (code : String) (extra : ProductRow → Bool) (ps : List ProductRow) :
    ((((ps.map fun p => ({ product := p } : Row)).flatMap fun row =>
        (db.categories.filter fun c => row.product.CategoryID = some c.ID).map
          fun c => ({ row with category := some c } : Row)).filter
            fun row => categoryCodeIs code row && extra row.product).map fun row => row.product)
      = ps.filter fun p =>
          decide ((∃ c ∈ db.categories, p.CategoryID = some c.ID ∧ c.Code = code) ∧
            extra p = true) := by
  induction ps with
  | nil => rfl
  | cons p ps ih =>
    rw [List.map_cons, List.flatMap_cons, List.filter_append, List.map_append, ih,
      List.filter_cons]
    have h1 := joined_one db hpk code extra p
    simp only at h1 ⊢
    rw [h1]
    by_cases hP : (∃ c ∈ db.categories, p.CategoryID = some c.ID ∧ c.Code = code) ∧
        extra p = true
    · simp [hP]
    · simp [hP]

end gorm

namespace gorm

/-- Counting a statement and then fetching one page of it, when neither statement
fails: the count is the number of selected rows, the page is cut out of them. -/
theorem Statement.count_then_find (q : Statement) (hok : ∀ k, q.db.failure k = none)
    (offset limit : Int) :
    q.Count = .ok (q.selected.length : Int) ∧
    ((((q.Preload "Category").Preload "Variants").Offset offset).Limit limit).Find =
      .ok ((if limit ≥ 0 then
            ((q.selected.map fun row => row.product).drop offset.toNat).take limit.toNat
          else (q.selected.map fun row => row.product).drop offset.toNat).map
        (q.db.load (q.preloads ++ ["Category"] ++ ["Variants"]))) := by
  constructor
  · simp only [Statement.Count, hok]
  · have hdrop : ∀ l : List Row,
        (if offset > 0 then l.drop offset.toNat else l) = l.drop offset.toNat := by
      intro l
      by_cases h : offset > 0
      · rw [if_pos h]
      · rw [if_neg h]
        have : offset.toNat = 0 := by omega
        rw [this, List.drop_zero]
    simp only [Statement.Find, Statement.Limit, Statement.Offset, Statement.Preload,
      Statement.selected, hok, hdrop]
    by_cases hl : limit ≥ 0
    · simp only [hl, if_true, List.map_take, List.map_drop, List.map_map]
      rfl
    · simp only [hl, if_false, List.map_drop, List.map_map]
      rfl

end gorm

namespace models

open gorm

/-- What `GetAll` returns when both statements succeed: the total is the number of
matching rows, the list is the page of them that `OFFSET` and `LIMIT` cut out. -/
theorem ProductsRepository.GetAll_eq (r : ProductsRepository) (offset limit : Int)
    (categoryCode : String) (priceLessThan : Option decimal.Decimal)
    (hpk : (r.db.categories.map fun c => c.ID).Nodup)
    (hok : ∀ k, r.db.failure k = none) :
    r.GetAll offset limit categoryCode priceLessThan =
      ((if limit ≥ 0 then
          ((r.db.products.filter fun p =>
            decide (Matches r.db categoryCode priceLessThan p)).drop offset.toNat).take
              limit.toNat
        else
          (r.db.products.filter fun p =>
            decide (Matches r.db categoryCode priceLessThan p)).drop offset.toNat).map
          (r.db.load ["Category", "Variants"]),
        ((r.db.products.filter fun p =>
          decide (Matches r.db categoryCode priceLessThan p)).length : Int),
        none) := by
  have fin : ∀ q : Statement, q.db = r.db → q.preloads = [] →
      (q.selected.map fun row => row.product) =
        (r.db.products.filter fun p =>
          decide (Matches r.db categoryCode priceLessThan p)) →
      (match q.Count with
        | .error err => (([] : List Product), (0 : Int), some err)
        | .ok total =>
          match ((((q.Preload "Category").Preload "Variants").Offset offset).Limit
              limit).Find with
          | .error err => ([], 0, some err)
          | .ok products => (products, total, none)) =
      ((if limit ≥ 0 then
          ((r.db.products.filter fun p =>
            decide (Matches r.db categoryCode priceLessThan p)).drop offset.toNat).take
              limit.toNat
        else
          (r.db.products.filter fun p =>
            decide (Matches r.db categoryCode priceLessThan p)).drop offset.toNat).map
          (r.db.load ["Category", "Variants"]),
        ((r.db.products.filter fun p =>
          decide (Matches r.db categoryCode priceLessThan p)).length : Int),
        none) := by
    intro q hdb hpre hsel
    have hq := Statement.count_then_find q (by rw [hdb]; exact hok) offset limit
    rw [hq.1, hq.2, hsel, hdb, hpre]
    simp only [List.nil_append, List.singleton_append]
    rw [← hsel, List.length_map]
  unfold ProductsRepository.GetAll
  by_cases hc : categoryCode = ""
  · subst hc
    cases priceLessThan with
    | none =>
      simp only [ne_eq, not_true_eq_false, if_false]
      refine fin _ ?_ ?_ ?_
      · rfl
      · rfl
      simp only [Statement.selected, DB.Model, List.all_nil, List.filter_true, List.map_map]
      rw [show ((fun row : Row => row.product) ∘ fun p : ProductRow =>
          ({ product := p } : Row)) = id from rfl, List.map_id]
      symm
      rw [List.filter_eq_self]
      intro p _
      simp [Matches]
    | some bound =>
      simp only [ne_eq, not_true_eq_false, if_false]
      refine fin _ ?_ ?_ ?_
      · rfl
      · rfl
      simp only [Statement.selected, Statement.Where, DB.Model, List.nil_append,
        List.all_cons, List.all_nil, Bool.and_true, List.filter_map, List.map_map]
      rw [show ((fun row : Row => row.product) ∘ fun p : ProductRow =>
          ({ product := p } : Row)) = id from rfl, List.map_id]
      apply List.filter_congr
      intro p _
      simp [Matches, priceBelow, ← decimal.Decimal.lt_iff]
  · cases priceLessThan with
    | none =>
      simp only [ne_eq, hc, not_false_eq_true, if_true]
      refine fin _ ?_ ?_ ?_
      · rfl
      · rfl
      have hj := joined_selected r.db hpk categoryCode (fun _ => true) r.db.products
      simp only [Bool.and_true, and_true] at hj
      simp only [Statement.selected, Statement.Where, Statement.JoinsCategories, DB.Model,
        List.nil_append, List.all_cons, List.all_nil, Bool.and_true]
      rw [hj]
      apply List.filter_congr
      intro p _
      simp [Matches, hc]
    | some bound =>
      simp only [ne_eq, hc, not_false_eq_true, if_true]
      refine fin _ ?_ ?_ ?_
      · rfl
      · rfl
      have hj := joined_selected r.db hpk categoryCode (fun p => p.Price.lt bound)
        r.db.products
      simp only [Statement.selected, Statement.Where, Statement.JoinsCategories, DB.Model,
        List.nil_append, List.cons_append, List.all_cons, List.all_nil, Bool.and_true,
        priceBelow]
      rw [hj]
      apply List.filter_congr
      intro p _
      simp [Matches, hc, ← decimal.Decimal.lt_iff]

end models

namespace models

open gorm

/-- Under a unique key, looking a stored category up by its id finds that category. -/
theorem find_by_id (l : List Category) (h : (l.map fun c => c.ID).Nodup) (c : Category)
    (hc : c ∈ l) : l.find? (fun x => x.ID = c.ID) = some c := by
  induction l with
  | nil => cases hc
  | cons d ds ih =>
    rw [List.map_cons, List.nodup_cons] at h
    rcases List.mem_cons.mp hc with rfl | hmem
    · simp [List.find?_cons]
    · have hne : d.ID ≠ c.ID := by
        intro heq
        exact h.1 (List.mem_map.mpr ⟨c, hmem, heq.symm⟩)
      rw [List.find?_cons, show decide (d.ID = c.ID) = false from by simpa using hne]
      exact ih h.2 hmem

/-- Scanning a row into an entity keeps its columns. -/
theorem row_load (db : DB) (preloads : List String) (p : ProductRow) :
    (db.load preloads p).row = p := rfl

/-- C11, as amended: for every stored set of products (category ids unique, both
statements succeeding) `GetAll` returns as total the number of product rows matching
the filters, whatever the offset and the limit; a row matches when the category code
is empty or the row has a category with that code, and the price bound is nil or the
row's price is strictly below it; the list holds matching products only, in storage
order, skipping the first `offset` matches (none for an offset that is not positive)
and, for a limit that is not negative, holding at most `limit` of them; with a
negative limit it holds every match after the skipped ones. -/
theorem ProductsRepository.GetAll_page (r : ProductsRepository) (offset limit : Int)
    (categoryCode : String) (priceLessThan : Option decimal.Decimal)
    (hpk : (r.db.categories.map fun c => c.ID).Nodup)
    (hok : ∀ k, r.db.failure k = none) :
    ∃ products total,
      r.GetAll offset limit categoryCode priceLessThan = (products, total, none) ∧
      total = ((r.db.products.filter fun p =>
        decide (Matches r.db categoryCode priceLessThan p)).length : Int) ∧
      (∀ offset' limit' : Int,
        (r.GetAll offset' limit' categoryCode priceLessThan).2.1 = total) ∧
      (∀ p ∈ products, p.row ∈ r.db.products ∧
        Matches r.db categoryCode priceLessThan p.row ∧
        (categoryCode ≠ "" → ∃ c, p.Category = some c ∧ c.Code = categoryCode)) ∧
      (0 ≤ limit → (products.length : Int) ≤ limit ∧
        products.map Product.row =
          ((r.db.products.filter fun p =>
            decide (Matches r.db categoryCode priceLessThan p)).drop offset.toNat).take
              limit.toNat) ∧
      (limit < 0 → products.map Product.row =
        (r.db.products.filter fun p =>
          decide (Matches r.db categoryCode priceLessThan p)).drop offset.toNat) := by
  have heq := ProductsRepository.GetAll_eq r offset limit categoryCode priceLessThan hpk hok
  have hrows : ∀ l : List ProductRow,
      (l.map (r.db.load ["Category", "Variants"])).map Product.row = l := by
    intro l
    rw [List.map_map]
    exact List.map_id l
  have hsub : ∀ q, q ∈ (if limit ≥ 0 then
          ((r.db.products.filter fun p =>
            decide (Matches r.db categoryCode priceLessThan p)).drop offset.toNat).take
              limit.toNat
        else
          (r.db.products.filter fun p =>
            decide (Matches r.db categoryCode priceLessThan p)).drop offset.toNat) →
      q ∈ r.db.products ∧ Matches r.db categoryCode priceLessThan q := by
    intro q hq
    have hq2 : q ∈ r.db.products.filter fun p =>
        decide (Matches r.db categoryCode priceLessThan p) := by
      split at hq
      · exact List.mem_of_mem_drop (List.mem_of_mem_take hq)
      · exact List.mem_of_mem_drop hq
    rw [List.mem_filter] at hq2
    exact ⟨hq2.1, of_decide_eq_true hq2.2⟩
  refine ⟨_, _, heq, rfl, ?_, ?_, ?_, ?_⟩
  · intro offset' limit'
    rw [ProductsRepository.GetAll_eq r offset' limit' categoryCode priceLessThan hpk hok]
  · intro p hp
    obtain ⟨q, hq, rfl⟩ := List.mem_map.mp hp
    obtain ⟨hq1, hq2⟩ := hsub q hq
    refine ⟨hq1, hq2, ?_⟩
    intro hne
    rcases hq2.1 with h | ⟨c, hc, hid, hcode⟩
    · exact absurd h hne
    · refine ⟨c, ?_, hcode⟩
      simp only [DB.load, List.mem_cons, true_or, if_true, hid]
      exact find_by_id r.db.categories hpk c hc
  · intro hl
    rw [if_pos hl, hrows]
    refine ⟨?_, rfl⟩
    rw [List.length_map]
    have h1 := List.length_take_le limit.toNat
      ((r.db.products.filter fun p =>
        decide (Matches r.db categoryCode priceLessThan p)).drop offset.toNat)
    omega
  · intro hl
    rw [if_neg (by omega), hrows]

/-- The page `offset = 1`, `limit = 1` of the clothing priced below 15 in the sample
database, as an instance of `ProductsRepository.GetAll_page`: two rows match, the
second of them is returned. -/
theorem ProductsRepository.GetAll_page_witness :
    (NewProductsRepository sampleDB).GetAll 1 1 "clothing" (some ⟨15, 0⟩) =
      ([{ ID := 4, Code := "PROD004", Price := ⟨1250, -2⟩, CategoryID := some 1,
          Category := some { ID := 1, Code := "clothing", Name := "Clothing" } }], 2, none) ∧
    ∃ products total,
      (NewProductsRepository sampleDB).GetAll 1 1 "clothing" (some ⟨15, 0⟩) =
        (products, total, none) ∧
      (products.length : Int) ≤ 1 ∧
      ∀ p ∈ products, Matches sampleDB "clothing" (some ⟨15, 0⟩) p.row := by
  obtain ⟨products, total, h1, _, _, h4, h5, _⟩ :=
    ProductsRepository.GetAll_page (NewProductsRepository sampleDB) 1 1 "clothing"
      (some ⟨15, 0⟩) (by decide) (fun _ => rfl)
  exact ⟨by decide, products, total, h1, (h5 (by decide)).1, fun p hp => (h4 p hp).2.1⟩

/-- C11 as stated fails for a negative limit: on the sample database the call with
limit -1 returns all five products, which is not at most -1 of them. -/
theorem ProductsRepository.GetAll_negative_limit :
    (sampleDB.categories.map fun c => c.ID).Nodup ∧
    ((NewProductsRepository sampleDB).GetAll 0 (-1) "" none).2 = (5, none) ∧
    ((NewProductsRepository sampleDB).GetAll 0 (-1) "" none).1.length = 5 ∧
    ¬ ((((NewProductsRepository sampleDB).GetAll 0 (-1) "" none).1.length : Int) ≤ -1) := by
  refine ⟨by decide, by decide, by decide, by decide⟩

end models
